import Mathlib

/-!
Verification of the Immersive Display State Manager (`FullscreenManager` in
`FullscreenBlockSchemaSettings.tsx`).  The manager saves and restores DOM
element state around a "fullscreen" promotion: it records the container's
inline values for a fixed set of style properties, hides every sibling of
every ancestor of the container (recording each sibling's computed display
mode), applies fixed full-viewport style values, optionally injects a
processed style block into the document head, and keys the saved state by
the container's `id` attribute in a `Map`.

The DOM is embedded shallowly: elements are identified by numeric object
identities, each carrying an `id` attribute, a parent pointer, the inline
values of the fourteen overridden style properties, and a base (stylesheet)
display value used by `getComputedStyle` when no inline display is set.
Well-formed documents (`Dom.WF`) have distinct element identities and
parent pointers that strictly decrease, a topological numbering every
finite DOM tree admits.
-/

/-- The fixed set of style properties the manager overrides, in the key
order of the `FULLSCREEN_STYLES` object literal (`Object.keys` order). -/
inductive SProp where
  | position | top | left | width | height | zIndex | background
  | overflow | margin | padding | marginBottom | boxSizing | maxHeight
  | display
deriving DecidableEq

/-- Inline values of the fourteen overridden style properties of one
element (`element.style` restricted to the properties the manager reads
and writes).  A missing inline value is the empty string, as in CSSOM. -/
structure StyleProps where
  position : String := ""
  top : String := ""
  left : String := ""
  width : String := ""
  height : String := ""
  zIndex : String := ""
  background : String := ""
  overflow : String := ""
  margin : String := ""
  padding : String := ""
  marginBottom : String := ""
  boxSizing : String := ""
  maxHeight : String := ""
  display : String := ""
deriving DecidableEq

/-- Read `element.style[prop]`. -/
def StyleProps.get (s : StyleProps) : SProp → String
  | .position => s.position
  | .top => s.top
  | .left => s.left
  | .width => s.width
  | .height => s.height
  | .zIndex => s.zIndex
  | .background => s.background
  | .overflow => s.overflow
  | .margin => s.margin
  | .padding => s.padding
  | .marginBottom => s.marginBottom
  | .boxSizing => s.boxSizing
  | .maxHeight => s.maxHeight
  | .display => s.display

/-- Write `element.style[prop] = v`. -/
def StyleProps.set (s : StyleProps) : SProp → String → StyleProps
  | .position, v => { s with position := v }
  | .top, v => { s with top := v }
  | .left, v => { s with left := v }
  | .width, v => { s with width := v }
  | .height, v => { s with height := v }
  | .zIndex, v => { s with zIndex := v }
  | .background, v => { s with background := v }
  | .overflow, v => { s with overflow := v }
  | .margin, v => { s with margin := v }
  | .padding, v => { s with padding := v }
  | .marginBottom, v => { s with marginBottom := v }
  | .boxSizing, v => { s with boxSizing := v }
  | .maxHeight, v => { s with maxHeight := v }
  | .display, v => { s with display := v }

/-- `const FULLSCREEN_STYLES = { position: 'fixed', ... }`, in source
order. -/
def FULLSCREEN_STYLES : List (SProp × String) :=
  [(.position, "fixed"), (.top, "0"), (.left, "0"), (.width, "100vw"),
   (.height, "100vh"), (.zIndex, "9999"), (.background, "#fff"),
   (.overflow, "auto"), (.margin, "0"), (.padding, "0"),
   (.marginBottom, "0"), (.boxSizing, "border-box"),
   (.maxHeight, "100vh"), (.display, "block")]

/-- `const STYLES_TO_SAVE = Object.keys(FULLSCREEN_STYLES)`. -/
def STYLES_TO_SAVE : List SProp := FULLSCREEN_STYLES.map Prod.fst

/-- Element object identity (a DOM node reference). -/
abbrev Eid := Nat

/-- One DOM element: its `id` attribute, parent pointer, inline styles,
and the display value the stylesheet cascade would give it when no inline
display is set (what `getComputedStyle(e).display` falls back to). -/
structure ElementData where
  idAttr : String
  parent : Option Eid
  style : StyleProps
  baseDisplay : String
deriving DecidableEq

/-- Association-list lookup (first entry wins, as in DOM queries). -/
def alookup {α β : Type} [DecidableEq α] (k : α) : List (α × β) → Option β
  | [] => none
  | p :: rest => if p.1 = k then some p.2 else alookup k rest

/-- The document: all live element objects keyed by identity, the identity
of `document.body`, the `<style>` blocks currently in `document.head`
(handle, css text) in insertion order, and the next fresh handle. -/
structure Dom where
  elems : List (Eid × ElementData)
  body : Eid
  head : List (Nat × String)
  nextHandle : Nat
deriving DecidableEq

/-- Dereference an element object. -/
def Dom.find (dom : Dom) (e : Eid) : Option ElementData :=
  alookup e dom.elems

/-- `element.style[prop] = v` as a document transformation. -/
def Dom.setStyle (dom : Dom) (e : Eid) (p : SProp) (v : String) : Dom :=
  { dom with
    elems := dom.elems.map fun q =>
      (q.1, if q.1 = e then { q.2 with style := q.2.style.set p v } else q.2) }

/-- `element.parentElement`. -/
def parentOf (dom : Dom) (e : Eid) : Option Eid :=
  (dom.find e).bind (·.parent)

/-- `parent.children`, in document order. -/
def childrenOf (dom : Dom) (p : Eid) : List Eid :=
  (dom.elems.filter fun q => q.2.parent = some p).map Prod.fst

/-- `window.getComputedStyle(e).display`: the inline display when set,
otherwise the stylesheet/default value. -/
def computedDisplay (dom : Dom) (e : Eid) : String :=
  match dom.find e with
  | none => ""
  | some d => if d.style.display = "" then d.baseDisplay else d.style.display

/-- Fuelled ancestor test backing `containsE`. -/
def containsB (dom : Dom) (a : Eid) : Nat → Eid → Bool
  | 0, _ => false
  | fuel + 1, b =>
    (a = b) ||
      match parentOf dom b with
      | none => false
      | some p => if p < b then containsB dom a fuel p else false

/-- `a.contains(b)`: inclusive descendant test, computed along parent
pointers.  On well-formed documents parent identities strictly decrease,
so fuel `b + 1` always suffices. -/
def containsE (dom : Dom) (a b : Eid) : Bool :=
  containsB dom a (b + 1) b

/-- `document.getElementById`: the first document element whose `id`
attribute matches; the empty string matches no element. -/
def getElementById (dom : Dom) (id : String) : Option Eid :=
  if id = "" then none
  else
    match dom.elems.find? (fun q => q.2.idAttr = id) with
    | none => none
    | some q => some q.1

/-- Decidable per-entry check: parent pointers strictly decrease. -/
def parentDecr (q : Eid × ElementData) : Bool :=
  match q.2.parent with
  | none => true
  | some p => decide (p < q.1)

/-- Well-formed document: distinct element identities and strictly
decreasing parent pointers (a topological numbering; every finite DOM
tree admits one). -/
def Dom.WF (dom : Dom) : Prop :=
  (dom.elems.map Prod.fst).Nodup ∧ ∀ q ∈ dom.elems, parentDecr q = true

instance (dom : Dom) : Decidable dom.WF := by
  unfold Dom.WF; infer_instance

/-! ## Placeholder substitution (`processFullscreenStyle`) -/

/-- Left-to-right scan implementing a global literal regex replacement
(`style.replace(/\$\{blockId\}/g, rep)`): at each position either a match
is consumed (emitting `rep` and skipping the matched characters) or the
character is copied.  The `skip` counter counts matched characters still
to be consumed. -/
def scanRepl (pat rep : List Char) : List Char → Nat → List Char
  | [], _ => []
  | _ :: rest, skip + 1 => scanRepl pat rep rest skip
  | c :: rest, 0 =>
    if pat.isPrefixOf (c :: rest) then
      rep ++ scanRepl pat rep rest (pat.length - 1)
    else
      c :: scanRepl pat rep rest 0

/-- The placeholder token `${blockId}` as a character list. -/
def placeholderChars : List Char := "$\x7bblockId\x7d".toList

/-- The container-scoped selector substituted for the placeholder:
`'#' + blockId + ' '`. -/
def selectorChars (blockId : String) : List Char :=
  '#' :: (blockId.toList ++ [' '])

/-- `processFullscreenStyle(style, blockId)`: replace every occurrence of
the placeholder token with the scoped selector `#<blockId> `. -/
def processFullscreenStyle (style blockId : String) : String :=
  ⟨scanRepl placeholderChars (selectorChars blockId) style.toList 0⟩

/-- Number of positions at which `pat` occurs in `l`. -/
def countOccs (pat : List Char) : List Char → Nat
  | [] => 0
  | c :: rest =>
    (if pat.isPrefixOf (c :: rest) then 1 else 0) + countOccs pat rest

/-! ## Manager state and operations -/

/-- `ElementState`: the saved pre-fullscreen state of one container.
`originalStyles` holds `element.style[prop] || ''` for each property in
`STYLES_TO_SAVE` (building the record field by field in that order copies
the fourteen inline values).  `hiddenElements` records each suppressed
sibling (by object reference) with the computed display it had when it
was hidden, in push order. -/
structure ElementState where
  originalStyles : StyleProps
  hiddenElements : List (Eid × String)
deriving DecidableEq

/-- The `FullscreenManager` instance fields: the keyed session store
(a `Map<string, ElementState>` in insertion order), the single shared
reference to the last injected style element, and the pending sweep
timer (modelled by its interval when armed). -/
structure FullscreenManager where
  elementStates : List (String × ElementState)
  fullscreenStyleElement : Option Nat
  cleanupTimer : Option Nat
deriving DecidableEq

/-- `new FullscreenManager()`. -/
def FullscreenManager.init : FullscreenManager :=
  { elementStates := [], fullscreenStyleElement := none, cleanupTimer := none }

/-- `Map.prototype.set`: replace in place when the key exists, append
otherwise. -/
def mapSet (m : List (String × ElementState)) (k : String) (v : ElementState) :
    List (String × ElementState) :=
  if m.any (fun p => p.1 = k) then
    m.map fun p => if p.1 = k then (k, v) else p
  else
    m ++ [(k, v)]

/-- `Map.prototype.delete`. -/
def mapDelete (m : List (String × ElementState)) (k : String) :
    List (String × ElementState) :=
  m.filter fun p => p.1 ≠ k

/-- `addScopedStyle`: create a style element with the given css text and
append it to `document.head`, returning the new handle. -/
def addScopedStyle (dom : Dom) (css : String) : Nat × Dom :=
  (dom.nextHandle,
   { dom with head := dom.head ++ [(dom.nextHandle, css)],
              nextHandle := dom.nextHandle + 1 })

/-- `removeAddedStyle`: detach the style element from its parent if it
still has one (no-op on an already removed handle). -/
def removeAddedStyle (dom : Dom) (h : Option Nat) : Dom :=
  match h with
  | none => dom
  | some hh => { dom with head := dom.head.filter fun q => q.1 ≠ hh }

/-- One level of the sibling-hiding loop in `saveElementState`: walk the
given children of `current`'s parent; every sibling that is not `current`,
does not contain `current` and is not contained in it has its computed
display recorded and its inline display set to `'none'`. -/
def hideSiblings (dom : Dom) (cur : Eid) :
    List Eid → List (Eid × String) × Dom
  | [] => ([], dom)
  | s :: rest =>
    if s ≠ cur ∧ containsE dom cur s = false ∧ containsE dom s cur = false then
      let d0 := computedDisplay dom s
      let dom1 := dom.setStyle s .display "none"
      let (hs, dom2) := hideSiblings dom1 cur rest
      ((s, d0) :: hs, dom2)
    else
      hideSiblings dom cur rest

/-- The `while (current && current !== document.body)` walk of
`saveElementState`, hiding qualifying siblings at each ancestor level.
The JS loop is unbounded; on well-formed documents the parent chain is
strictly decreasing, so fuel `dom.elems.length + 1` always suffices. -/
def hideWalk (dom : Dom) : Nat → Eid → List (Eid × String) × Dom
  | 0, _ => ([], dom)
  | fuel + 1, cur =>
    if cur = dom.body then ([], dom)
    else
      match parentOf dom cur with
      | none => ([], dom)
      | some par =>
        let (hs1, dom1) := hideSiblings dom cur (childrenOf dom par)
        let (hs2, dom2) := hideWalk dom1 fuel par
        (hs1 ++ hs2, dom2)

/-- `saveElementState(element)`: record the element's current inline
values of the fourteen overridden properties (`element.style[prop] || ''`,
which is the stored inline string), then hide the siblings of every
ancestor level, recording them in push order.  `none` models the thrown
`TypeError` when the element reference is not a live object. -/
def saveElementState (dom : Dom) (e : Eid) :
    Option (ElementState × Dom) :=
  match dom.find e with
  | none => none
  | some d =>
    let (hs, dom1) := hideWalk dom (dom.elems.length + 1) e
    some ({ originalStyles := d.style, hiddenElements := hs }, dom1)

/-- Fold writing a list of (property, value) pairs onto one element. -/
def setStylesFold (dom : Dom) (e : Eid) (l : List (SProp × String)) : Dom :=
  l.foldl (fun d pv => d.setStyle e pv.1 pv.2) dom

/-- The same fold at the level of one element's style record. -/
def setFold (s : StyleProps) (l : List (SProp × String)) : StyleProps :=
  l.foldl (fun t pv => t.set pv.1 pv.2) s

/-- The `state.hiddenElements.forEach` loop of `restoreElementState`:
set each recorded element's inline display back to the recorded value,
skipping references that are no longer live element nodes. -/
def restoreHiddenFold (dom : Dom) (l : List (Eid × String)) : Dom :=
  l.foldl
    (fun d pr => if (d.find pr.1).isSome then d.setStyle pr.1 .display pr.2 else d)
    dom

/-- `restoreElementState(element, state)`: clear the fourteen overridden
properties, write back every saved value (all saved values are strings,
so every property is written, in `Object.entries` insertion order =
`STYLES_TO_SAVE` order), then restore the recorded siblings. -/
def restoreElementState (dom : Dom) (e : Eid) (st : ElementState) : Dom :=
  let dom1 := setStylesFold dom e (STYLES_TO_SAVE.map fun p => (p, ""))
  let dom2 := setStylesFold dom1 e
    (STYLES_TO_SAVE.map fun p => (p, st.originalStyles.get p))
  restoreHiddenFold dom2 st.hiddenElements

/-- The `Object.entries(FULLSCREEN_STYLES).forEach` application of the
fixed full-viewport values to the container. -/
def applyFullscreenStyles (dom : Dom) (e : Eid) : Dom :=
  setStylesFold dom e FULLSCREEN_STYLES

/-- `toggleFullscreen(element, isFullscreen, fullscreenStyle = '')`.

The element argument is `none` for a null reference.  The returned `Bool`
is true when the surrounding `try { ... } catch` caught an exception and
logged it (`console.error`); the call itself always returns normally.  A
`none` element (or a reference that no longer dereferences) throws at the
first property access, before any mutation, and is caught.

Enter: save state (hiding siblings), store it under `element.id` (the
walk never changes `id` attributes, so the id read after the walk equals
the one read before), apply the fixed fullscreen values, and if a
non-empty custom style is supplied, inject the processed style text and
overwrite the shared `fullscreenStyleElement` handle.

Exit: look up the state by `element.id`; if absent, warn and return;
otherwise restore the element and siblings, delete the store entry, and
remove the style element currently referenced by the shared handle, if
any. -/
def toggleFullscreen (m : FullscreenManager) (dom : Dom) (elem : Option Eid)
    (isFullscreen : Bool) (fullscreenStyle : String) :
    FullscreenManager × Dom × Bool :=
  match elem with
  | none => (m, dom, true)
  | some e =>
    match dom.find e with
    | none => (m, dom, true)
    | some d =>
      if isFullscreen then
        match saveElementState dom e with
        | none => (m, dom, true)
        | some (st, dom1) =>
          let m1 := { m with elementStates := mapSet m.elementStates d.idAttr st }
          let dom2 := applyFullscreenStyles dom1 e
          if fullscreenStyle = "" then
            (m1, dom2, false)
          else
            let processed := processFullscreenStyle fullscreenStyle d.idAttr
            let (h, dom3) := addScopedStyle dom2 processed
            ({ m1 with fullscreenStyleElement := some h }, dom3, false)
      else
        match alookup d.idAttr m.elementStates with
        | none => (m, dom, false)
        | some st =>
          let dom1 := restoreElementState dom e st
          let m1 := { m with elementStates := mapDelete m.elementStates d.idAttr }
          match m1.fullscreenStyleElement with
          | some h =>
            ({ m1 with fullscreenStyleElement := none },
             removeAddedStyle dom1 (some h), false)
          | none => (m1, dom1, false)

/-- `isElementFullscreen(element)`: `elementStates.has(element.id)`. -/
def isElementFullscreen (m : FullscreenManager) (dom : Dom) (e : Eid) : Bool :=
  match dom.find e with
  | none => false
  | some d => (alookup d.idAttr m.elementStates).isSome

/-- `exitFullscreen(element)`: toggle off only when a session exists. -/
def exitFullscreen (m : FullscreenManager) (dom : Dom) (e : Eid) :
    FullscreenManager × Dom :=
  if isElementFullscreen m dom e then
    let r := toggleFullscreen m dom (some e) false ""
    (r.1, r.2.1)
  else (m, dom)

/-- One iteration of the `elementStates.forEach` loop in `cleanup`:
resolve the stored id; exit the element when it is a live document
element, otherwise drop the stale entry. -/
def cleanupStep (st : FullscreenManager × Dom) (elementId : String) :
    FullscreenManager × Dom :=
  match getElementById st.2 elementId with
  | some e => exitFullscreen st.1 st.2 e
  | none =>
    ({ st.1 with elementStates := mapDelete st.1.elementStates elementId }, st.2)

/-- `cleanup()`: cancel the pending timer, walk the stored sessions
(each iteration either exits its own entry or deletes it, so iterating
the snapshot of keys matches the live `Map.forEach`), clear the store,
and remove the style element referenced by the shared handle, if any. -/
def cleanup (m : FullscreenManager) (dom : Dom) : FullscreenManager × Dom :=
  let m0 := { m with cleanupTimer := none }
  let r := (m0.elementStates.map Prod.fst).foldl cleanupStep (m0, dom)
  let m2 := { r.1 with elementStates := [] }
  match m2.fullscreenStyleElement with
  | some h =>
    ({ m2 with fullscreenStyleElement := none }, removeAddedStyle r.2 (some h))
  | none => (m2, r.2)

/-- `schedulePeriodicCleanup(intervalMs = 300000)`: clear any pending
timer and arm a new one. -/
def schedulePeriodicCleanup (m : FullscreenManager) (intervalMs : Nat) :
    FullscreenManager :=
  { m with cleanupTimer := some intervalMs }

/-- The body of the timer armed by `schedulePeriodicCleanup`: collect
every stored id that no longer resolves to a live document element,
delete those entries, and re-arm the timer.  The document is read only;
in particular no style element is removed. -/
def sweepTick (m : FullscreenManager) (dom : Dom) (intervalMs : Nat) :
    FullscreenManager :=
  let invalidIds :=
    (m.elementStates.map Prod.fst).filter fun id => (getElementById dom id).isNone
  let m1 := { m with elementStates := invalidIds.foldl mapDelete m.elementStates }
  schedulePeriodicCleanup m1 intervalMs

/-! ## Basic lemmas: lookup, style writes, structural invariance -/

theorem alookup_map_entry {β : Type} (g : Eid → β → β) (y : Eid) :
    ∀ l : List (Eid × β),
      alookup y (l.map fun q => (q.1, g q.1 q.2)) = (alookup y l).map (g y) := by
  intro l
  induction l with
  | nil => rfl
  | cons p rest ih =>
    by_cases h : p.1 = y
    · simp [alookup, h]
    · simp [alookup, h, ih]

theorem alookup_mem {α β : Type} [DecidableEq α] {k : α} {v : β} :
    ∀ {l : List (α × β)}, alookup k l = some v → (k, v) ∈ l := by
  intro l
  induction l with
  | nil => intro h; simp [alookup] at h
  | cons p rest ih =>
    intro h
    by_cases hp : p.1 = k
    · simp [alookup, hp] at h
      subst hp h
      exact List.mem_cons_self _ _
    · simp [alookup, hp] at h
      exact List.mem_cons_of_mem _ (ih h)

theorem alookup_of_mem_nodup {α β : Type} [DecidableEq α] {k : α} {v : β} :
    ∀ {l : List (α × β)}, (l.map Prod.fst).Nodup → (k, v) ∈ l →
      alookup k l = some v := by
  intro l
  induction l with
  | nil => intro _ h; simp at h
  | cons p rest ih =>
    intro hnd hm
    rcases List.mem_cons.mp hm with h | h
    · subst h; simp [alookup]
    · have hk : p.1 ≠ k := by
        intro he
        have : p.1 ∈ rest.map Prod.fst :=
          he ▸ List.mem_map_of_mem Prod.fst h
        exact (List.nodup_cons.mp (by simpa using hnd)).1 this
      have := ih (List.nodup_cons.mp (by simpa using hnd)).2 h
      simp [alookup, hk, this]

theorem find_setStyle (dom : Dom) (e : Eid) (p : SProp) (v : String) (y : Eid) :
    (dom.setStyle e p v).find y =
      (dom.find y).map
        (fun d => if y = e then { d with style := d.style.set p v } else d) := by
  unfold Dom.setStyle Dom.find
  simp only
  rw [alookup_map_entry (fun k d => if k = e then { d with style := d.style.set p v } else d) y dom.elems]

theorem find_setStyle_ne (dom : Dom) (e : Eid) (p : SProp) (v : String) (y : Eid)
    (h : y ≠ e) : (dom.setStyle e p v).find y = dom.find y := by
  rw [find_setStyle]
  cases dom.find y with
  | none => rfl
  | some d => simp [h]

theorem find_setStyle_self (dom : Dom) (e : Eid) (p : SProp) (v : String) :
    (dom.setStyle e p v).find e =
      (dom.find e).map (fun d => { d with style := d.style.set p v }) := by
  rw [find_setStyle]
  cases dom.find e with
  | none => rfl
  | some d => simp

theorem parentOf_setStyle (dom : Dom) (e : Eid) (p : SProp) (v : String) (y : Eid) :
    parentOf (dom.setStyle e p v) y = parentOf dom y := by
  unfold parentOf
  rw [find_setStyle]
  cases dom.find y with
  | none => rfl
  | some d => by_cases h : y = e <;> simp [h]

theorem idAttr_setStyle (dom : Dom) (e : Eid) (p : SProp) (v : String) (y : Eid) :
    ((dom.setStyle e p v).find y).map (·.idAttr) = (dom.find y).map (·.idAttr) := by
  rw [find_setStyle]
  cases dom.find y with
  | none => rfl
  | some d => by_cases h : y = e <;> simp [h]

theorem isSome_find_setStyle (dom : Dom) (e : Eid) (p : SProp) (v : String) (y : Eid) :
    ((dom.setStyle e p v).find y).isSome = (dom.find y).isSome := by
  rw [find_setStyle]
  cases dom.find y with
  | none => rfl
  | some d => rfl

theorem keys_setStyle (dom : Dom) (e : Eid) (p : SProp) (v : String) :
    (dom.setStyle e p v).elems.map Prod.fst = dom.elems.map Prod.fst := by
  unfold Dom.setStyle
  simp

theorem childrenOf_setStyle (dom : Dom) (e : Eid) (p : SProp) (v : String) (x : Eid) :
    childrenOf (dom.setStyle e p v) x = childrenOf dom x := by
  unfold childrenOf Dom.setStyle
  simp only
  induction dom.elems with
  | nil => rfl
  | cons q rest ih =>
    by_cases h : q.2.parent = some x
    · by_cases he : q.1 = e <;> simp [List.filter_cons, h, he, ih]
    · by_cases he : q.1 = e <;> simp [List.filter_cons, h, he, ih]

theorem WF_setStyle (dom : Dom) (e : Eid) (p : SProp) (v : String)
    (h : dom.WF) : (dom.setStyle e p v).WF := by
  obtain ⟨h1, h2⟩ := h
  constructor
  · rw [keys_setStyle]; exact h1
  · intro q hq
    unfold Dom.setStyle at hq
    simp only [List.mem_map] at hq
    obtain ⟨q0, hq0, rfl⟩ := hq
    have := h2 q0 hq0
    by_cases he : q0.1 = e <;> simp [parentDecr, he] at this ⊢ <;>
      cases hc : q0.2.parent <;> simp [hc] at this ⊢ <;> exact this

theorem computedDisplay_setStyle_ne (dom : Dom) (e : Eid) (p : SProp) (v : String)
    (y : Eid) (h : y ≠ e) :
    computedDisplay (dom.setStyle e p v) y = computedDisplay dom y := by
  unfold computedDisplay
  rw [find_setStyle_ne dom e p v y h]

theorem containsB_congr_parent {dom1 dom : Dom}
    (h : ∀ y, parentOf dom1 y = parentOf dom y) (a : Eid) :
    ∀ (f : Nat) (b : Eid), containsB dom1 a f b = containsB dom a f b := by
  intro f
  induction f with
  | zero => intro b; rfl
  | succ k ih =>
    intro b
    unfold containsB
    rw [h b]
    cases parentOf dom b with
    | none => rfl
    | some p =>
      by_cases hp : p < b <;> simp [hp, ih]

theorem containsE_congr_parent {dom1 dom : Dom}
    (h : ∀ y, parentOf dom1 y = parentOf dom y) (a b : Eid) :
    containsE dom1 a b = containsE dom a b := by
  unfold containsE
  exact containsB_congr_parent h a (b + 1) b

theorem containsB_fuel (dom : Dom) (a : Eid) :
    ∀ (f1 : Nat) (f2 : Nat) (b : Nat), b < f1 → b < f2 →
      containsB dom a f1 b = containsB dom a f2 b := by
  intro f1
  induction f1 with
  | zero => intro f2 b h1 _; exact absurd h1 (Nat.not_lt_zero b)
  | succ k ih =>
    intro f2 b h1 h2
    cases f2 with
    | zero => exact absurd h2 (Nat.not_lt_zero b)
    | succ j =>
      unfold containsB
      cases hp : parentOf dom b with
      | none => rfl
      | some p =>
        by_cases hpb : p < b
        · simp only [hpb, if_true]
          rw [ih j p (Nat.lt_of_lt_of_le hpb (Nat.lt_succ_iff.mp h1))
            (Nat.lt_of_lt_of_le hpb (Nat.lt_succ_iff.mp h2))]
        · simp [hpb]

theorem containsE_self (dom : Dom) (a : Eid) : containsE dom a a = true := by
  unfold containsE containsB
  simp

theorem containsE_step_child (dom : Dom) {par x : Eid}
    (hp : parentOf dom x = some par) (hlt : par < x) :
    containsE dom par x = true := by
  unfold containsE
  unfold containsB
  rw [hp]
  simp only [hlt, if_true]
  rw [containsB_fuel dom par x (par + 1) par hlt (Nat.lt_succ_self par)]
  unfold containsB
  simp

theorem parentOf_lt_of_WF {dom : Dom} (hwf : dom.WF) {x par : Eid}
    (hp : parentOf dom x = some par) : par < x := by
  unfold parentOf Dom.find at hp
  cases hf : alookup x dom.elems with
  | none => rw [hf] at hp; simp at hp
  | some d =>
    rw [hf] at hp
    simp at hp
    have hm := alookup_mem hf
    have := hwf.2 (x, d) hm
    simp [parentDecr, hp] at this
    exact this

theorem containsE_of_parent {dom : Dom} (hwf : dom.WF) {cur par : Eid}
    (hp : parentOf dom cur = some par) :
    ∀ z, containsE dom cur z = true → containsE dom par z = true := by
  intro z
  induction z using Nat.strong_induction_on with
  | _ z ih =>
    intro hc
    unfold containsE containsB at hc
    rcases Bool.or_eq_true_iff.mp hc with hc1 | hc2
    · have hz : cur = z := by simpa using hc1
      subst hz
      exact containsE_step_child dom hp (parentOf_lt_of_WF hwf hp)
    · cases hq : parentOf dom z with
      | none => rw [hq] at hc2; simp at hc2
      | some q =>
        rw [hq] at hc2
        by_cases hqz : q < z
        · simp only [hqz, if_true] at hc2
          have hcq : containsE dom cur q = true := by
            unfold containsE
            rw [← containsB_fuel dom cur z (q + 1) q hqz (Nat.lt_succ_self q)]
            exact hc2
          have hq2 := ih q hqz hcq
          unfold containsE containsB
          rw [hq]
          simp only [hqz, if_true]
          rw [containsB_fuel dom par z (q + 1) q hqz (Nat.lt_succ_self q)]
          unfold containsE at hq2
          simp [hq2]
        · simp [hqz] at hc2

/-! ## Fold-level lemmas -/

/-- Characterisation helper: the net document effect of hiding a recorded
list of siblings. -/
def hideApply (dom : Dom) (l : List (Eid × String)) : Dom :=
  l.foldl (fun d pr => d.setStyle pr.1 SProp.display "none") dom

theorem hideApply_nil (dom : Dom) : hideApply dom [] = dom := rfl

theorem hideApply_cons (dom : Dom) (pr : Eid × String) (l : List (Eid × String)) :
    hideApply dom (pr :: l) = hideApply (dom.setStyle pr.1 .display "none") l := rfl

theorem hideApply_append (dom : Dom) (l1 l2 : List (Eid × String)) :
    hideApply dom (l1 ++ l2) = hideApply (hideApply dom l1) l2 := by
  unfold hideApply
  exact List.foldl_append _ _ _ _

theorem find_hideApply_not_mem (l : List (Eid × String)) :
    ∀ (dom : Dom) (y : Eid), y ∉ l.map Prod.fst →
      (hideApply dom l).find y = dom.find y := by
  induction l with
  | nil => intro dom y _; rfl
  | cons pr rest ih =>
    intro dom y hy
    simp only [List.map_cons, List.mem_cons, not_or] at hy
    rw [hideApply_cons, ih _ y hy.2, find_setStyle_ne _ _ _ _ _ hy.1]

theorem parentOf_hideApply (l : List (Eid × String)) :
    ∀ (dom : Dom) (y : Eid), parentOf (hideApply dom l) y = parentOf dom y := by
  induction l with
  | nil => intro dom y; rfl
  | cons pr rest ih =>
    intro dom y
    rw [hideApply_cons, ih, parentOf_setStyle]

theorem containsE_hideApply (l : List (Eid × String)) (dom : Dom) (a b : Eid) :
    containsE (hideApply dom l) a b = containsE dom a b :=
  containsE_congr_parent (fun y => parentOf_hideApply l dom y) a b

theorem computedDisplay_hideApply_not_mem (l : List (Eid × String)) (dom : Dom)
    (y : Eid) (hy : y ∉ l.map Prod.fst) :
    computedDisplay (hideApply dom l) y = computedDisplay dom y := by
  unfold computedDisplay
  rw [find_hideApply_not_mem l dom y hy]

theorem childrenOf_hideApply (l : List (Eid × String)) :
    ∀ (dom : Dom) (x : Eid), childrenOf (hideApply dom l) x = childrenOf dom x := by
  induction l with
  | nil => intro dom x; rfl
  | cons pr rest ih =>
    intro dom x
    rw [hideApply_cons, ih, childrenOf_setStyle]

theorem WF_hideApply (l : List (Eid × String)) :
    ∀ (dom : Dom), dom.WF → (hideApply dom l).WF := by
  induction l with
  | nil => intro dom h; exact h
  | cons pr rest ih =>
    intro dom h
    rw [hideApply_cons]
    exact ih _ (WF_setStyle _ _ _ _ h)

theorem find_setStylesFold (l : List (SProp × String)) :
    ∀ (dom : Dom) (e y : Eid),
      (setStylesFold dom e l).find y =
        (dom.find y).map
          (fun d => if y = e then { d with style := setFold d.style l } else d) := by
  induction l with
  | nil =>
    intro dom e y
    unfold setStylesFold setFold
    simp only [List.foldl_nil]
    cases dom.find y with
    | none => rfl
    | some d => by_cases h : y = e <;> simp [h]
  | cons pv rest ih =>
    intro dom e y
    unfold setStylesFold at ih ⊢
    simp only [List.foldl_cons]
    rw [ih, find_setStyle]
    cases dom.find y with
    | none => rfl
    | some d =>
      by_cases h : y = e <;> simp [h, setFold]

theorem isSome_find_setStylesFold (l : List (SProp × String)) (dom : Dom) (e y : Eid) :
    ((setStylesFold dom e l).find y).isSome = (dom.find y).isSome := by
  rw [find_setStylesFold]
  cases dom.find y with
  | none => rfl
  | some d => rfl

theorem find_restoreHiddenFold_not_mem (l : List (Eid × String)) :
    ∀ (dom : Dom) (y : Eid), y ∉ l.map Prod.fst →
      (restoreHiddenFold dom l).find y = dom.find y := by
  induction l with
  | nil => intro dom y _; rfl
  | cons pr rest ih =>
    intro dom y hy
    simp only [List.map_cons, List.mem_cons, not_or] at hy
    unfold restoreHiddenFold at ih ⊢
    simp only [List.foldl_cons]
    by_cases hg : ((dom.find pr.1).isSome : Prop)
    · simp only [hg, if_true]
      rw [ih _ y hy.2, find_setStyle_ne _ _ _ _ _ hy.1]
    · simp only [hg, if_false]
      exact ih _ y hy.2

theorem find_restoreHiddenFold_mem (l : List (Eid × String)) :
    ∀ (dom : Dom) (y : Eid) (v : String),
      (l.map Prod.fst).Nodup → (y, v) ∈ l → (dom.find y).isSome →
      (restoreHiddenFold dom l).find y =
        (dom.find y).map (fun d => { d with style := d.style.set .display v }) := by
  induction l with
  | nil => intro dom y v _ hm _; simp at hm
  | cons pr rest ih =>
    intro dom y v hnd hm hs
    rw [List.map_cons] at hnd
    have hnd' := List.nodup_cons.mp hnd
    unfold restoreHiddenFold
    simp only [List.foldl_cons]
    rcases List.mem_cons.mp hm with h | h
    · subst h
      simp only [hs, if_true]
      have hyrest : y ∉ rest.map Prod.fst := hnd'.1
      have hgoal := find_restoreHiddenFold_not_mem rest
        (dom.setStyle y .display v) y hyrest
      unfold restoreHiddenFold at hgoal
      rw [hgoal, find_setStyle_self]
    · have hy1 : pr.1 ≠ y := by
        intro he
        exact hnd'.1 (he ▸ List.mem_map_of_mem Prod.fst h)
      by_cases hg : ((dom.find pr.1).isSome : Prop)
      · simp only [hg, if_true]
        have hrec := ih (dom.setStyle pr.1 .display pr.2) y v hnd'.2 h
          (by rw [isSome_find_setStyle]; exact hs)
        unfold restoreHiddenFold at hrec
        rw [hrec, find_setStyle_ne _ _ _ _ _ (Ne.symm hy1)]
      · simp only [hg, if_false]
        exact ih dom y v hnd'.2 h hs

/-! ## The sibling-hiding walk -/

theorem childrenOf_nodup {dom : Dom} (hwf : dom.WF) (p : Eid) :
    (childrenOf dom p).Nodup := by
  unfold childrenOf
  have hsub : ((dom.elems.filter fun q => q.2.parent = some p).map Prod.fst).Sublist
      (dom.elems.map Prod.fst) :=
    (List.filter_sublist _).map Prod.fst
  exact hwf.1.sublist hsub

theorem parentOf_of_mem_childrenOf {dom : Dom} (hwf : dom.WF) {p x : Eid}
    (hx : x ∈ childrenOf dom p) : parentOf dom x = some p := by
  unfold childrenOf at hx
  simp only [List.mem_map] at hx
  obtain ⟨q, hq, rfl⟩ := hx
  have hqm := List.mem_filter.mp hq
  have : alookup q.1 dom.elems = some q.2 := by
    have := alookup_of_mem_nodup (k := q.1) (v := q.2) hwf.1 ?_
    · exact this
    · exact (Prod.mk.eta ▸ hqm.1)
  unfold parentOf Dom.find
  rw [this]
  simpa using hqm.2

theorem hideSiblings_cons (dom : Dom) (cur s : Eid) (rest : List Eid) :
    hideSiblings dom cur (s :: rest) =
      if s ≠ cur ∧ containsE dom cur s = false ∧ containsE dom s cur = false then
        ((s, computedDisplay dom s) ::
           (hideSiblings (dom.setStyle s .display "none") cur rest).1,
         (hideSiblings (dom.setStyle s .display "none") cur rest).2)
      else hideSiblings dom cur rest := rfl

theorem hideSiblings_spec (cur : Eid) :
    ∀ (sibs : List Eid) (dom : Dom), sibs.Nodup →
      ((hideSiblings dom cur sibs).2 = hideApply dom (hideSiblings dom cur sibs).1)
      ∧ ((hideSiblings dom cur sibs).1.map Prod.fst).Sublist sibs
      ∧ (∀ pr ∈ (hideSiblings dom cur sibs).1, pr.2 = computedDisplay dom pr.1)
      ∧ (∀ z, containsE dom cur z = true →
          z ∉ (hideSiblings dom cur sibs).1.map Prod.fst) := by
  intro sibs
  induction sibs with
  | nil =>
    intro dom _
    refine ⟨rfl, List.Sublist.refl _, ?_, ?_⟩
    · intro pr hpr; simp [hideSiblings] at hpr
    · intro z _; simp [hideSiblings]
  | cons s rest ih =>
    intro dom hnd
    have hnd' := List.nodup_cons.mp hnd
    by_cases hcond : s ≠ cur ∧ containsE dom cur s = false ∧ containsE dom s cur = false
    · rw [hideSiblings_cons, if_pos hcond]
      obtain ⟨ih1, ih2, ih3, ih4⟩ := ih (dom.setStyle s .display "none") hnd'.2
      refine ⟨?_, ?_, ?_, ?_⟩
      · simp only
        rw [ih1, hideApply_cons]
      · simp only [List.map_cons]
        exact ih2.cons₂ s
      · intro pr hpr
        rcases List.mem_cons.mp hpr with h | h
        · subst h; rfl
        · have h3 := ih3 pr h
          have hne : pr.1 ≠ s := by
            intro he
            have : pr.1 ∈ rest := ih2.subset (List.mem_map_of_mem Prod.fst h)
            exact hnd'.1 (he ▸ this)
          rw [h3, computedDisplay_setStyle_ne _ _ _ _ _ hne]
      · intro z hz
        simp only [List.map_cons, List.mem_cons, not_or]
        constructor
        · intro he
          rw [he] at hz
          rw [hz] at hcond
          exact Bool.noConfusion hcond.2.1
        · exact ih4 z (by
            rw [containsE_congr_parent
              (fun y => parentOf_setStyle dom s .display "none" y)]
            exact hz)
    · rw [hideSiblings_cons, if_neg hcond]
      obtain ⟨ih1, ih2, ih3, ih4⟩ := ih dom hnd'.2
      exact ⟨ih1, ih2.trans (List.sublist_cons_self s rest), ih3, ih4⟩

theorem hideWalk_succ (dom : Dom) (fuel : Nat) (cur : Eid) :
    hideWalk dom (fuel + 1) cur =
      if cur = dom.body then ([], dom)
      else
        match parentOf dom cur with
        | none => ([], dom)
        | some par =>
          ((hideSiblings dom cur (childrenOf dom par)).1 ++
             (hideWalk (hideSiblings dom cur (childrenOf dom par)).2 fuel par).1,
           (hideWalk (hideSiblings dom cur (childrenOf dom par)).2 fuel par).2) := rfl

theorem hideWalk_spec :
    ∀ (fuel : Nat) (cur : Eid) (dom : Dom), dom.WF →
      ((hideWalk dom fuel cur).2 = hideApply dom (hideWalk dom fuel cur).1)
      ∧ ((hideWalk dom fuel cur).1.map Prod.fst).Nodup
      ∧ (∀ pr ∈ (hideWalk dom fuel cur).1, pr.2 = computedDisplay dom pr.1)
      ∧ (∀ z, containsE dom cur z = true →
          z ∉ (hideWalk dom fuel cur).1.map Prod.fst) := by
  intro fuel
  induction fuel with
  | zero =>
    intro cur dom _
    exact ⟨rfl, List.nodup_nil, by intro pr hpr; simp [hideWalk] at hpr,
      by intro z _; simp [hideWalk]⟩
  | succ k ih =>
    intro cur dom hwf
    rw [hideWalk_succ]
    by_cases hb : cur = dom.body
    · simp only [hb, if_true]
      exact ⟨rfl, List.nodup_nil, by intro pr hpr; simp at hpr, by intro z _; simp⟩
    · simp only [hb, if_false]
      cases hp : parentOf dom cur with
      | none =>
        exact ⟨rfl, List.nodup_nil, by intro pr hpr; simp at hpr, by intro z _; simp⟩
      | some par =>
        obtain ⟨hs1eq, hs1sub, hs1val, hs1not⟩ :=
          hideSiblings_spec cur (childrenOf dom par) dom (childrenOf_nodup hwf par)
        set hs1 := (hideSiblings dom cur (childrenOf dom par)).1 with hhs1
        set dom1 := (hideSiblings dom cur (childrenOf dom par)).2 with hdom1
        have hwf1 : dom1.WF := by
          rw [hs1eq]; exact WF_hideApply hs1 dom hwf
        obtain ⟨ih1, ih2, ih3, ih4⟩ := ih par dom1 hwf1
        set hs2 := (hideWalk dom1 k par).1 with hhs2
        -- every level-one sibling is a child of `par`, hence contained in it,
        -- hence absent from the deeper walk's records
        have hmem1 : ∀ x ∈ hs1.map Prod.fst, x ∉ hs2.map Prod.fst := by
          intro x hx
          have hxc : x ∈ childrenOf dom par := hs1sub.subset hx
          have hxp : parentOf dom x = some par := parentOf_of_mem_childrenOf hwf hxc
          have hxlt : par < x := parentOf_lt_of_WF hwf hxp
          have hcpx : containsE dom par x = true := containsE_step_child dom hxp hxlt
          have hcpx1 : containsE dom1 par x = true := by
            rw [hs1eq, containsE_hideApply]; exact hcpx
          exact ih4 x hcpx1
        refine ⟨?_, ?_, ?_, ?_⟩
        · simp only
          rw [hideApply_append, ih1, ← hs1eq]
        · simp only [List.map_append]
          rw [List.nodup_append]
          exact ⟨hs1sub.nodup (childrenOf_nodup hwf par), ih2, hmem1⟩
        · intro pr hpr
          rcases List.mem_append.mp hpr with h | h
          · exact hs1val pr h
          · have h3 := ih3 pr h
            have hnm : pr.1 ∉ hs1.map Prod.fst := by
              intro hin
              exact hmem1 pr.1 hin (List.mem_map_of_mem Prod.fst h)
            rw [h3, hs1eq, computedDisplay_hideApply_not_mem hs1 dom pr.1 hnm]
        · intro z hz
          simp only [List.map_append, List.mem_append, not_or]
          refine ⟨hs1not z hz, ?_⟩
          have hzpar : containsE dom par z = true :=
            containsE_of_parent hwf hp z hz
          have : containsE dom1 par z = true := by
            rw [hs1eq, containsE_hideApply]; exact hzpar
          exact ih4 z this

/-! ## Further auxiliary lemmas -/

theorem alookup_isSome_of_mem_keys {α β : Type} [DecidableEq α] {k : α} :
    ∀ {l : List (α × β)}, k ∈ l.map Prod.fst → (alookup k l).isSome := by
  intro l
  induction l with
  | nil => intro h; simp at h
  | cons p rest ih =>
    intro h
    by_cases hp : p.1 = k
    · simp [alookup, hp]
    · simp only [alookup, hp, if_false]
      apply ih
      rw [List.map_cons] at h
      rcases List.mem_cons.mp h with h1 | h1
      · exact absurd h1.symm hp
      · exact h1

theorem childrenOf_subset_keys (dom : Dom) (p : Eid) :
    ∀ x ∈ childrenOf dom p, x ∈ dom.elems.map Prod.fst := by
  intro x hx
  unfold childrenOf at hx
  simp only [List.mem_map] at hx ⊢
  obtain ⟨q, hq, rfl⟩ := hx
  exact ⟨q, (List.mem_filter.mp hq).1, rfl⟩

theorem keys_hideApply (l : List (Eid × String)) :
    ∀ dom : Dom, (hideApply dom l).elems.map Prod.fst = dom.elems.map Prod.fst := by
  induction l with
  | nil => intro dom; rfl
  | cons pr rest ih =>
    intro dom
    rw [hideApply_cons, ih, keys_setStyle]

theorem find_hideApply_mem (l : List (Eid × String)) :
    ∀ (dom : Dom) (y : Eid) (v : String),
      (l.map Prod.fst).Nodup → (y, v) ∈ l →
      (hideApply dom l).find y =
        (dom.find y).map (fun d => { d with style := d.style.set .display "none" }) := by
  induction l with
  | nil => intro dom y v _ hm; simp at hm
  | cons pr rest ih =>
    intro dom y v hnd hm
    rw [List.map_cons] at hnd
    have hnd' := List.nodup_cons.mp hnd
    rw [hideApply_cons]
    rcases List.mem_cons.mp hm with h | h
    · subst h
      rw [find_hideApply_not_mem rest _ y hnd'.1, find_setStyle_self]
    · have hy1 : pr.1 ≠ y := by
        intro he
        exact hnd'.1 (he ▸ List.mem_map_of_mem Prod.fst h)
      rw [ih _ y v hnd'.2 h, find_setStyle_ne _ _ _ _ _ (Ne.symm hy1)]

theorem hideWalk_mem_keys :
    ∀ (fuel : Nat) (cur : Eid) (dom : Dom), dom.WF →
      ∀ x ∈ (hideWalk dom fuel cur).1.map Prod.fst, x ∈ dom.elems.map Prod.fst := by
  intro fuel
  induction fuel with
  | zero => intro cur dom _ x hx; simp [hideWalk] at hx
  | succ k ih =>
    intro cur dom hwf x hx
    rw [hideWalk_succ] at hx
    by_cases hb : cur = dom.body
    · simp [hb] at hx
    · simp only [hb, if_false] at hx
      cases hp : parentOf dom cur with
      | none => rw [hp] at hx; simp at hx
      | some par =>
        rw [hp] at hx
        simp only [List.map_append, List.mem_append] at hx
        obtain ⟨hs1eq, hs1sub, _, _⟩ :=
          hideSiblings_spec cur (childrenOf dom par) dom (childrenOf_nodup hwf par)
        rcases hx with h | h
        · exact childrenOf_subset_keys dom par x (hs1sub.subset h)
        · have hwf1 : (hideSiblings dom cur (childrenOf dom par)).2.WF := by
            rw [hs1eq]; exact WF_hideApply _ dom hwf
          have := ih par _ hwf1 x h
          rw [hs1eq, keys_hideApply] at this
          exact this

/-! ## Map (session store) lemmas -/

theorem alookup_isSome_eq_any {α β : Type} [DecidableEq α] (k : α) :
    ∀ l : List (α × β), (alookup k l).isSome = l.any (fun p => p.1 = k) := by
  intro l
  induction l with
  | nil => rfl
  | cons p rest ih =>
    by_cases hp : p.1 = k <;> simp [alookup, hp, ih]

theorem alookup_append {α β : Type} [DecidableEq α] (k : α) :
    ∀ l1 l2 : List (α × β),
      alookup k (l1 ++ l2) =
        match alookup k l1 with
        | some v => some v
        | none => alookup k l2 := by
  intro l1 l2
  induction l1 with
  | nil => rfl
  | cons p rest ih =>
    by_cases hp : p.1 = k <;> simp [alookup, hp, ih]

theorem alookup_mapSet_self (m : List (String × ElementState)) (k : String)
    (v : ElementState) : alookup k (mapSet m k v) = some v := by
  unfold mapSet
  by_cases hany : m.any (fun p => p.1 = k)
  · simp only [hany, if_true]
    have : ∀ l : List (String × ElementState), l.any (fun p => p.1 = k) →
        alookup k (l.map fun p => if p.1 = k then (k, v) else p) = some v := by
      intro l
      induction l with
      | nil => intro h; simp at h
      | cons p rest ih =>
        intro h
        by_cases hp : p.1 = k
        · simp [alookup, hp]
        · simp only [List.any_cons, Bool.or_eq_true, decide_eq_true_eq] at h
          rcases h with h | h
          · exact absurd h hp
          · simp only [List.map_cons, hp, if_false]
            have hne : p.1 ≠ k := hp
            simp only [alookup, hne, if_false]
            exact ih h
    exact this m hany
  · rw [if_neg hany, alookup_append]
    have hnone : alookup k m = none := by
      cases ha : alookup k m with
      | none => rfl
      | some w =>
        exfalso
        have : (alookup k m).isSome := by rw [ha]; rfl
        rw [alookup_isSome_eq_any] at this
        exact hany this
    rw [hnone]
    simp [alookup]

theorem alookup_mapDelete_self (m : List (String × ElementState)) (k : String) :
    alookup k (mapDelete m k) = none := by
  unfold mapDelete
  induction m with
  | nil => rfl
  | cons p rest ih =>
    simp only [ne_eq, decide_not] at ih ⊢
    by_cases hp : p.1 = k
    · simp [List.filter_cons, hp, ih]
    · simp [List.filter_cons, hp, alookup, ih]

theorem alookup_mapDelete_ne (m : List (String × ElementState)) (k k' : String)
    (h : k' ≠ k) : alookup k' (mapDelete m k) = alookup k' m := by
  unfold mapDelete
  induction m with
  | nil => rfl
  | cons p rest ih =>
    simp only [ne_eq, decide_not] at ih ⊢
    by_cases hp : p.1 = k
    · have hp' : p.1 ≠ k' := by
        rw [hp]; exact fun he => h he.symm
      rw [List.filter_cons]
      have hf : (!decide (p.1 = k)) = false := by simp [hp]
      rw [hf, if_neg Bool.false_ne_true, ih]
      simp [alookup, hp']
    · rw [List.filter_cons]
      have hf : (!decide (p.1 = k)) = true := by simp [hp]
      rw [hf, if_pos rfl]
      by_cases hp2 : p.1 = k'
      · simp [alookup, hp2]
      · simp [alookup, hp2, ih]

/-! ## Style-record computations and head/handle preservation -/

theorem setFold_clear_then_saved (s t : StyleProps) :
    setFold (setFold s (STYLES_TO_SAVE.map fun p => (p, "")))
      (STYLES_TO_SAVE.map fun p => (p, t.get p)) = t := by
  cases s; cases t; rfl

theorem setFold_fullscreen_const (s t : StyleProps) :
    setFold s FULLSCREEN_STYLES = setFold t FULLSCREEN_STYLES := by
  cases s; cases t; rfl

theorem head_setStyle (dom : Dom) (e : Eid) (p : SProp) (v : String) :
    (dom.setStyle e p v).head = dom.head := rfl

theorem nextHandle_setStyle (dom : Dom) (e : Eid) (p : SProp) (v : String) :
    (dom.setStyle e p v).nextHandle = dom.nextHandle := rfl

theorem head_hideApply (l : List (Eid × String)) :
    ∀ dom : Dom, (hideApply dom l).head = dom.head := by
  induction l with
  | nil => intro dom; rfl
  | cons pr rest ih => intro dom; rw [hideApply_cons, ih]; rfl

theorem nextHandle_hideApply (l : List (Eid × String)) :
    ∀ dom : Dom, (hideApply dom l).nextHandle = dom.nextHandle := by
  induction l with
  | nil => intro dom; rfl
  | cons pr rest ih => intro dom; rw [hideApply_cons, ih]; rfl

theorem head_setStylesFold (l : List (SProp × String)) :
    ∀ (dom : Dom) (e : Eid), (setStylesFold dom e l).head = dom.head := by
  induction l with
  | nil => intro dom e; rfl
  | cons pv rest ih =>
    intro dom e
    unfold setStylesFold at ih ⊢
    simp only [List.foldl_cons]
    rw [ih]
    rfl

theorem nextHandle_setStylesFold (l : List (SProp × String)) :
    ∀ (dom : Dom) (e : Eid), (setStylesFold dom e l).nextHandle = dom.nextHandle := by
  induction l with
  | nil => intro dom e; rfl
  | cons pv rest ih =>
    intro dom e
    unfold setStylesFold at ih ⊢
    simp only [List.foldl_cons]
    rw [ih]
    rfl

theorem head_restoreHiddenFold (l : List (Eid × String)) :
    ∀ dom : Dom, (restoreHiddenFold dom l).head = dom.head := by
  induction l with
  | nil => intro dom; rfl
  | cons pr rest ih =>
    intro dom
    unfold restoreHiddenFold at ih ⊢
    simp only [List.foldl_cons]
    by_cases hg : ((dom.find pr.1).isSome : Prop)
    · simp only [hg, if_true]; rw [ih]; rfl
    · simp only [hg, if_false]; exact ih dom

theorem head_restoreElementState (dom : Dom) (e : Eid) (st : ElementState) :
    (restoreElementState dom e st).head = dom.head := by
  unfold restoreElementState
  rw [head_restoreHiddenFold, head_setStylesFold, head_setStylesFold]

theorem find_removeAddedStyle (dom : Dom) (h : Option Nat) (y : Eid) :
    (removeAddedStyle dom h).find y = dom.find y := by
  cases h <;> rfl

theorem computedDisplay_removeAddedStyle (dom : Dom) (h : Option Nat) (y : Eid) :
    computedDisplay (removeAddedStyle dom h) y = computedDisplay dom y := by
  unfold computedDisplay
  rw [find_removeAddedStyle]

theorem find_setStylesFold_ne (l : List (SProp × String)) (dom : Dom) (e y : Eid)
    (h : y ≠ e) : (setStylesFold dom e l).find y = dom.find y := by
  rw [find_setStylesFold]
  cases dom.find y with
  | none => rfl
  | some d => simp [h]

/-! ## Restore-state characterisation -/

theorem find_restoreElementState_self (dom : Dom) (e : Eid) (st : ElementState)
    (hnot : e ∉ st.hiddenElements.map Prod.fst) :
    (restoreElementState dom e st).find e =
      (dom.find e).map (fun d => { d with style := st.originalStyles }) := by
  unfold restoreElementState
  rw [find_restoreHiddenFold_not_mem _ _ _ hnot, find_setStylesFold, find_setStylesFold]
  cases dom.find e with
  | none => rfl
  | some d =>
    simp [setFold_clear_then_saved d.style st.originalStyles]

theorem find_restoreElementState_hidden (dom : Dom) (e : Eid) (st : ElementState)
    (y : Eid) (v : String) (hne : y ≠ e)
    (hnd : (st.hiddenElements.map Prod.fst).Nodup)
    (hmem : (y, v) ∈ st.hiddenElements) (hsome : (dom.find y).isSome) :
    (restoreElementState dom e st).find y =
      (dom.find y).map (fun d => { d with style := d.style.set .display v }) := by
  unfold restoreElementState
  rw [find_restoreHiddenFold_mem _ _ _ _ hnd hmem
    (by rw [isSome_find_setStylesFold, isSome_find_setStylesFold]; exact hsome)]
  rw [find_setStylesFold_ne _ _ _ _ hne, find_setStylesFold_ne _ _ _ _ hne]

/-! ## Unfolding equations for the public operations -/


/-! ## Unfolding equations for the public operations -/

theorem toggle_enter_eq (m : FullscreenManager) (dom : Dom) (e : Eid)
    (d : ElementData) (hfind : dom.find e = some d) :
    toggleFullscreen m dom (some e) true "" =
      ({ m with
          elementStates := mapSet m.elementStates d.idAttr
            ⟨d.style, (hideWalk dom (dom.elems.length + 1) e).1⟩ },
       applyFullscreenStyles (hideWalk dom (dom.elems.length + 1) e).2 e,
       false) := by
  simp only [toggleFullscreen, saveElementState, hfind, if_true]

theorem toggle_exit_found_eq (m : FullscreenManager) (dom : Dom) (e : Eid)
    (d : ElementData) (st : ElementState) (hfind : dom.find e = some d)
    (hlook : alookup d.idAttr m.elementStates = some st) :
    toggleFullscreen m dom (some e) false "" =
      (match m.fullscreenStyleElement with
       | some h =>
         ({ elementStates := mapDelete m.elementStates d.idAttr,
            fullscreenStyleElement := none,
            cleanupTimer := m.cleanupTimer },
          removeAddedStyle (restoreElementState dom e st) (some h), false)
       | none =>
         ({ m with elementStates := mapDelete m.elementStates d.idAttr },
          restoreElementState dom e st, false)) := by
  simp only [toggleFullscreen, hfind, hlook, Bool.false_eq_true, if_false]

theorem toggle_exit_notfound_eq (m : FullscreenManager) (dom : Dom) (e : Eid)
    (d : ElementData) (hfind : dom.find e = some d)
    (hlook : alookup d.idAttr m.elementStates = none) :
    toggleFullscreen m dom (some e) false "" = (m, dom, false) := by
  simp only [toggleFullscreen, hfind, hlook, Bool.false_eq_true, if_false]

theorem toggle_none_eq (m : FullscreenManager) (dom : Dom) (b : Bool) (s : String) :
    toggleFullscreen m dom none b s = (m, dom, true) := rfl

/-! ## C1: enter followed by exit restores the container -/

/-- Inline value of one overridden style property (empty when the element
reference is dead). -/
def styleOf (dom : Dom) (e : Eid) (p : SProp) : String :=
  match dom.find e with
  | none => ""
  | some d => d.style.get p

/-- The suppressed-sibling records `saveElementState` captures on entry. -/
def suppressedSiblings (dom : Dom) (e : Eid) : List (Eid × String) :=
  (hideWalk dom (dom.elems.length + 1) e).1

/-- `toggleFullscreen(C, true)` immediately followed by
`toggleFullscreen(C, false)`, with no custom style text. -/
def enterThenExit (m : FullscreenManager) (dom : Dom) (e : Eid) :
    FullscreenManager × Dom × Bool :=
  let r1 := toggleFullscreen m dom (some e) true ""
  toggleFullscreen r1.1 r1.2.1 (some e) false ""

theorem enterThenExit_dom (m : FullscreenManager) (dom : Dom) (e : Eid)
    (d : ElementData) (hwf : dom.WF) (hfind : dom.find e = some d) :
    (enterThenExit m dom e).2.1 =
      removeAddedStyle
        (restoreElementState
          (applyFullscreenStyles (hideWalk dom (dom.elems.length + 1) e).2 e) e
          ⟨d.style, (hideWalk dom (dom.elems.length + 1) e).1⟩)
        m.fullscreenStyleElement := by
  obtain ⟨hW1, hW2, hW3, hW4⟩ := hideWalk_spec (dom.elems.length + 1) e dom hwf
  have henotin : e ∉ (hideWalk dom (dom.elems.length + 1) e).1.map Prod.fst :=
    hW4 e (containsE_self dom e)
  have hfind1 : (hideWalk dom (dom.elems.length + 1) e).2.find e = some d := by
    rw [hW1, find_hideApply_not_mem _ _ _ henotin, hfind]
  have hfind2 :
      (applyFullscreenStyles (hideWalk dom (dom.elems.length + 1) e).2 e).find e =
        some { d with style := setFold d.style FULLSCREEN_STYLES } := by
    unfold applyFullscreenStyles
    rw [find_setStylesFold, hfind1]
    simp
  unfold enterThenExit
  rw [toggle_enter_eq m dom e d hfind]
  simp only
  rw [toggle_exit_found_eq _ _ _ _ _ hfind2
    (alookup_mapSet_self m.elementStates d.idAttr
      ⟨d.style, (hideWalk dom (dom.elems.length + 1) e).1⟩)]
  cases m.fullscreenStyleElement <;> rfl

/-- C1.  Entering and then immediately exiting restores every one of the
fourteen overridden style properties of the container to its pre-enter
inline value, and restores every suppressed sibling's computed display
mode to its pre-enter value. -/
theorem c1_enter_exit_restores (m : FullscreenManager) (dom : Dom) (e : Eid)
    (d : ElementData) (hwf : dom.WF) (hfind : dom.find e = some d) :
    (∀ p ∈ STYLES_TO_SAVE,
       styleOf (enterThenExit m dom e).2.1 e p = styleOf dom e p)
    ∧ (∀ pr ∈ suppressedSiblings dom e,
       computedDisplay (enterThenExit m dom e).2.1 pr.1 =
         computedDisplay dom pr.1) := by
  obtain ⟨hW1, hW2, hW3, hW4⟩ := hideWalk_spec (dom.elems.length + 1) e dom hwf
  have henotin : e ∉ (hideWalk dom (dom.elems.length + 1) e).1.map Prod.fst :=
    hW4 e (containsE_self dom e)
  have hfind1 : (hideWalk dom (dom.elems.length + 1) e).2.find e = some d := by
    rw [hW1, find_hideApply_not_mem _ _ _ henotin, hfind]
  have hdomEq := enterThenExit_dom m dom e d hwf hfind
  constructor
  · intro p _
    rw [hdomEq]
    unfold styleOf
    rw [find_removeAddedStyle]
    rw [find_restoreElementState_self _ _ _ henotin]
    unfold applyFullscreenStyles
    rw [find_setStylesFold, hfind1, hfind]
    simp
  · intro pr hpr
    have hprfst : pr.1 ∈ (hideWalk dom (dom.elems.length + 1) e).1.map Prod.fst :=
      List.mem_map_of_mem Prod.fst hpr
    have hne : pr.1 ≠ e := fun he => henotin (he ▸ hprfst)
    have hkey : pr.1 ∈ dom.elems.map Prod.fst :=
      hideWalk_mem_keys (dom.elems.length + 1) e dom hwf pr.1 hprfst
    have hsome0 : (dom.find pr.1).isSome := alookup_isSome_of_mem_keys hkey
    have hmem : (pr.1, pr.2) ∈ (hideWalk dom (dom.elems.length + 1) e).1 := by
      simpa using hpr
    -- the document the exit call restores over
    have hfindmid :
        ((applyFullscreenStyles (hideWalk dom (dom.elems.length + 1) e).2 e).find pr.1) =
          (dom.find pr.1).map
            (fun d0 => { d0 with style := d0.style.set .display "none" }) := by
      unfold applyFullscreenStyles
      rw [find_setStylesFold_ne _ _ _ _ hne, hW1,
        find_hideApply_mem _ _ _ pr.2 hW2 hmem]
    have hsomemid :
        ((applyFullscreenStyles (hideWalk dom (dom.elems.length + 1) e).2 e).find pr.1).isSome := by
      rw [hfindmid]
      cases hd0 : dom.find pr.1 with
      | none => rw [hd0] at hsome0; simp at hsome0
      | some d0 => rfl
    rw [hdomEq, computedDisplay_removeAddedStyle]
    have hrest := find_restoreElementState_hidden
      (applyFullscreenStyles (hideWalk dom (dom.elems.length + 1) e).2 e) e
      ⟨d.style, (hideWalk dom (dom.elems.length + 1) e).1⟩ pr.1 pr.2 hne hW2 hmem hsomemid
    unfold computedDisplay
    rw [hrest, hfindmid]
    cases hd0 : dom.find pr.1 with
    | none => rw [hd0] at hsome0; simp at hsome0
    | some d0 =>
      simp only [Option.map_some]
      have hval := hW3 pr hmem
      unfold computedDisplay at hval
      rw [hd0] at hval
      dsimp only at hval
      by_cases hdisp : d0.style.display = ""
      · rw [if_pos hdisp] at hval
        by_cases hbase : d0.baseDisplay = ""
        · simp [StyleProps.set, hval, hbase, hdisp]
        · simp [StyleProps.set, hval, hbase, hdisp]
      · rw [if_neg hdisp] at hval
        simp [StyleProps.set, hval, hdisp]

/-! ## Identity and liveness preservation -/

theorem idAttr_find_hideApply (l : List (Eid × String)) :
    ∀ (dom : Dom) (y : Eid),
      ((hideApply dom l).find y).map (·.idAttr) = (dom.find y).map (·.idAttr) := by
  induction l with
  | nil => intro dom y; rfl
  | cons pr rest ih =>
    intro dom y
    rw [hideApply_cons, ih, idAttr_setStyle]

theorem isSome_find_hideApply (l : List (Eid × String)) :
    ∀ (dom : Dom) (y : Eid),
      ((hideApply dom l).find y).isSome = (dom.find y).isSome := by
  induction l with
  | nil => intro dom y; rfl
  | cons pr rest ih =>
    intro dom y
    rw [hideApply_cons, ih, isSome_find_setStyle]

theorem idAttr_find_setStylesFold (l : List (SProp × String)) (dom : Dom) (e y : Eid) :
    ((setStylesFold dom e l).find y).map (·.idAttr) = (dom.find y).map (·.idAttr) := by
  rw [find_setStylesFold]
  cases dom.find y with
  | none => rfl
  | some d => by_cases h : y = e <;> simp [h]

theorem idAttr_find_restoreHiddenFold (l : List (Eid × String)) :
    ∀ (dom : Dom) (y : Eid),
      ((restoreHiddenFold dom l).find y).map (·.idAttr) = (dom.find y).map (·.idAttr) := by
  induction l with
  | nil => intro dom y; rfl
  | cons pr rest ih =>
    intro dom y
    unfold restoreHiddenFold at ih ⊢
    simp only [List.foldl_cons]
    by_cases hg : ((dom.find pr.1).isSome : Prop)
    · simp only [hg, if_true]
      rw [ih, idAttr_setStyle]
    · simp only [hg, if_false]
      exact ih dom y

theorem isSome_find_restoreHiddenFold (l : List (Eid × String)) :
    ∀ (dom : Dom) (y : Eid),
      ((restoreHiddenFold dom l).find y).isSome = (dom.find y).isSome := by
  induction l with
  | nil => intro dom y; rfl
  | cons pr rest ih =>
    intro dom y
    unfold restoreHiddenFold at ih ⊢
    simp only [List.foldl_cons]
    by_cases hg : ((dom.find pr.1).isSome : Prop)
    · simp only [hg, if_true]
      rw [ih, isSome_find_setStyle]
    · simp only [hg, if_false]
      exact ih dom y

theorem idAttr_find_restoreElementState (dom : Dom) (e : Eid) (st : ElementState)
    (y : Eid) :
    ((restoreElementState dom e st).find y).map (·.idAttr) =
      (dom.find y).map (·.idAttr) := by
  unfold restoreElementState
  rw [idAttr_find_restoreHiddenFold, idAttr_find_setStylesFold,
    idAttr_find_setStylesFold]

theorem isSome_find_restoreElementState (dom : Dom) (e : Eid) (st : ElementState)
    (y : Eid) :
    ((restoreElementState dom e st).find y).isSome = (dom.find y).isSome := by
  unfold restoreElementState
  rw [isSome_find_restoreHiddenFold, isSome_find_setStylesFold,
    isSome_find_setStylesFold]

/-- Uniform shape of a found exit: the store entry is deleted, the shared
handle is cleared (it was already `none` when no style element was held),
and the style element the shared handle referenced is removed. -/
theorem toggle_exit_found_parts (m : FullscreenManager) (dom : Dom) (e : Eid)
    (d : ElementData) (st : ElementState) (hfind : dom.find e = some d)
    (hlook : alookup d.idAttr m.elementStates = some st) :
    toggleFullscreen m dom (some e) false "" =
      ({ elementStates := mapDelete m.elementStates d.idAttr,
         fullscreenStyleElement := none,
         cleanupTimer := m.cleanupTimer },
       removeAddedStyle (restoreElementState dom e st) m.fullscreenStyleElement,
       false) := by
  rw [toggle_exit_found_eq m dom e d st hfind hlook]
  cases hf : m.fullscreenStyleElement with
  | some h => rfl
  | none => rfl

/-! ## C8: a container never entered -/

/-- C8.  For a container with no session under its identifier,
`isElementFullscreen` is false and `exitFullscreen` leaves the manager and
the document (store, styles, head) completely unchanged. -/
theorem c8_never_entered_noop (m : FullscreenManager) (dom : Dom) (e : Eid)
    (d : ElementData) (hfind : dom.find e = some d)
    (hnone : alookup d.idAttr m.elementStates = none) :
    isElementFullscreen m dom e = false ∧ exitFullscreen m dom e = (m, dom) := by
  have hEF : isElementFullscreen m dom e = false := by
    unfold isElementFullscreen
    rw [hfind]
    simp only
    rw [hnone]
    rfl
  refine ⟨hEF, ?_⟩
  unfold exitFullscreen
  rw [hEF]
  simp

/-! ## C7: exit is idempotent -/

/-- C7.  `exitFullscreen(C); exitFullscreen(C)` produces exactly the same
manager state and document as a single `exitFullscreen(C)`. -/
theorem c7_exit_idempotent (m : FullscreenManager) (dom : Dom) (e : Eid)
    (d : ElementData) (hfind : dom.find e = some d) :
    exitFullscreen (exitFullscreen m dom e).1 (exitFullscreen m dom e).2 e =
      exitFullscreen m dom e := by
  cases hlook : alookup d.idAttr m.elementStates with
  | none =>
    have h1 : exitFullscreen m dom e = (m, dom) :=
      (c8_never_entered_noop m dom e d hfind hlook).2
    rw [h1]
    exact (c8_never_entered_noop m dom e d hfind hlook).2
  | some st =>
    have hEF : isElementFullscreen m dom e = true := by
      unfold isElementFullscreen
      rw [hfind]
      simp only
      rw [hlook]
      rfl
    have h1 : exitFullscreen m dom e =
        ((toggleFullscreen m dom (some e) false "").1,
         (toggleFullscreen m dom (some e) false "").2.1) := by
      unfold exitFullscreen
      rw [hEF]
      simp
    rw [toggle_exit_found_parts m dom e d st hfind hlook] at h1
    rw [h1]
    -- after the first exit the session is gone, so the second call is a no-op
    have hsome2 :
        ((removeAddedStyle (restoreElementState dom e st)
          m.fullscreenStyleElement).find e).isSome := by
      rw [find_removeAddedStyle, isSome_find_restoreElementState, hfind]
      rfl
    cases hfd : (removeAddedStyle (restoreElementState dom e st)
        m.fullscreenStyleElement).find e with
    | none => rw [hfd] at hsome2; simp at hsome2
    | some d2 =>
      have hid : d2.idAttr = d.idAttr := by
        have := idAttr_find_restoreElementState dom e st e
        rw [hfind] at this
        rw [find_removeAddedStyle] at hfd
        rw [hfd] at this
        simpa using this
      exact (c8_never_entered_noop _ _ e d2 hfd
        (by rw [hid]; exact alookup_mapDelete_self m.elementStates d.idAttr)).2

/-! ## C10: sessions are keyed solely by the id string -/

theorem hideSiblings_cons_eq (dom : Dom) (cur s : Eid) (rest : List Eid) :
    (hideSiblings dom cur (s :: rest)).2 =
      if s ≠ cur ∧ containsE dom cur s = false ∧ containsE dom s cur = false then
        (hideSiblings (dom.setStyle s .display "none") cur rest).2
      else (hideSiblings dom cur rest).2 := by
  rw [hideSiblings_cons]
  by_cases h : s ≠ cur ∧ containsE dom cur s = false ∧ containsE dom s cur = false
  · rw [if_pos h, if_pos h]
  · rw [if_neg h, if_neg h]

theorem idAttr_find_hideSiblings (cur : Eid) :
    ∀ (sibs : List Eid) (dom : Dom) (y : Eid),
      ((hideSiblings dom cur sibs).2.find y).map (·.idAttr) =
        (dom.find y).map (·.idAttr) := by
  intro sibs
  induction sibs with
  | nil => intro dom y; rfl
  | cons s rest ih =>
    intro dom y
    rw [hideSiblings_cons_eq]
    by_cases h : s ≠ cur ∧ containsE dom cur s = false ∧ containsE dom s cur = false
    · rw [if_pos h, ih, idAttr_setStyle]
    · rw [if_neg h, ih]

theorem isSome_find_hideSiblings (cur : Eid) :
    ∀ (sibs : List Eid) (dom : Dom) (y : Eid),
      ((hideSiblings dom cur sibs).2.find y).isSome = (dom.find y).isSome := by
  intro sibs
  induction sibs with
  | nil => intro dom y; rfl
  | cons s rest ih =>
    intro dom y
    rw [hideSiblings_cons_eq]
    by_cases h : s ≠ cur ∧ containsE dom cur s = false ∧ containsE dom s cur = false
    · rw [if_pos h, ih, isSome_find_setStyle]
    · rw [if_neg h, ih]

theorem hideWalk_succ_dom (dom : Dom) (fuel : Nat) (cur : Eid) :
    (hideWalk dom (fuel + 1) cur).2 =
      if cur = dom.body then dom
      else
        match parentOf dom cur with
        | none => dom
        | some par =>
          (hideWalk (hideSiblings dom cur (childrenOf dom par)).2 fuel par).2 := by
  rw [hideWalk_succ]
  by_cases hb : cur = dom.body
  · rw [if_pos hb, if_pos hb]
  · rw [if_neg hb, if_neg hb]
    cases parentOf dom cur <;> rfl

theorem idAttr_find_hideWalk :
    ∀ (fuel : Nat) (cur : Eid) (dom : Dom) (y : Eid),
      ((hideWalk dom fuel cur).2.find y).map (·.idAttr) =
        (dom.find y).map (·.idAttr) := by
  intro fuel
  induction fuel with
  | zero => intro cur dom y; rfl
  | succ k ih =>
    intro cur dom y
    rw [hideWalk_succ_dom]
    by_cases hb : cur = dom.body
    · rw [if_pos hb]
    · rw [if_neg hb]
      cases hp : parentOf dom cur with
      | none => rfl
      | some par =>
        rw [ih, idAttr_find_hideSiblings]

theorem isSome_find_hideWalk :
    ∀ (fuel : Nat) (cur : Eid) (dom : Dom) (y : Eid),
      ((hideWalk dom fuel cur).2.find y).isSome = (dom.find y).isSome := by
  intro fuel
  induction fuel with
  | zero => intro cur dom y; rfl
  | succ k ih =>
    intro cur dom y
    rw [hideWalk_succ_dom]
    by_cases hb : cur = dom.body
    · rw [if_pos hb]
    · rw [if_neg hb]
      cases hp : parentOf dom cur with
      | none => rfl
      | some par =>
        rw [ih, isSome_find_hideSiblings]

/-- C10.  For two distinct live elements with equal `id` attributes,
entering fullscreen via the first makes `isElementFullscreen` report true
for the second, and exiting via the second consumes the session created
for the first: afterwards the first element is no longer recorded as
fullscreen. -/
theorem c10_sessions_keyed_by_id (m : FullscreenManager) (dom : Dom)
    (e1 e2 : Eid) (d1 d2 : ElementData) (hne : e1 ≠ e2)
    (h1 : dom.find e1 = some d1) (h2 : dom.find e2 = some d2)
    (hid : d1.idAttr = d2.idAttr) :
    isElementFullscreen (toggleFullscreen m dom (some e1) true "").1
      (toggleFullscreen m dom (some e1) true "").2.1 e2 = true
    ∧ isElementFullscreen
        (toggleFullscreen (toggleFullscreen m dom (some e1) true "").1
          (toggleFullscreen m dom (some e1) true "").2.1 (some e2) false "").1
        (toggleFullscreen (toggleFullscreen m dom (some e1) true "").1
          (toggleFullscreen m dom (some e1) true "").2.1 (some e2) false "").2.1
        e1 = false := by
  rw [toggle_enter_eq m dom e1 d1 h1]
  simp only
  have hsome2 :
      ((applyFullscreenStyles (hideWalk dom (dom.elems.length + 1) e1).2 e1).find e2).isSome := by
    unfold applyFullscreenStyles
    rw [isSome_find_setStylesFold, isSome_find_hideWalk, h2]
    rfl
  have hid2 :
      ((applyFullscreenStyles (hideWalk dom (dom.elems.length + 1) e1).2 e1).find e2).map (·.idAttr) =
        some d2.idAttr := by
    unfold applyFullscreenStyles
    rw [idAttr_find_setStylesFold, idAttr_find_hideWalk, h2]
    rfl
  cases hfd2 : (applyFullscreenStyles (hideWalk dom (dom.elems.length + 1) e1).2 e1).find e2 with
  | none => rw [hfd2] at hsome2; simp at hsome2
  | some d2' =>
    rw [hfd2] at hid2
    have hid2' : d2'.idAttr = d2.idAttr := by simpa using hid2
    have hlook2 : alookup d2'.idAttr
        (mapSet m.elementStates d1.idAttr
          ⟨d1.style, (hideWalk dom (dom.elems.length + 1) e1).1⟩) =
        some ⟨d1.style, (hideWalk dom (dom.elems.length + 1) e1).1⟩ := by
      rw [hid2', ← hid]
      exact alookup_mapSet_self _ _ _
    constructor
    · unfold isElementFullscreen
      rw [hfd2]
      simp only
      rw [hlook2]
      rfl
    · rw [toggle_exit_found_parts _ _ e2 d2' _ hfd2 hlook2]
      simp only
      have hsome1 :
          ((removeAddedStyle
            (restoreElementState
              (applyFullscreenStyles (hideWalk dom (dom.elems.length + 1) e1).2 e1) e2
              ⟨d1.style, (hideWalk dom (dom.elems.length + 1) e1).1⟩)
            (m.fullscreenStyleElement)).find e1).isSome := by
        rw [find_removeAddedStyle, isSome_find_restoreElementState]
        unfold applyFullscreenStyles
        rw [isSome_find_setStylesFold, isSome_find_hideWalk, h1]
        rfl
      have hid1 :
          ((removeAddedStyle
            (restoreElementState
              (applyFullscreenStyles (hideWalk dom (dom.elems.length + 1) e1).2 e1) e2
              ⟨d1.style, (hideWalk dom (dom.elems.length + 1) e1).1⟩)
            (m.fullscreenStyleElement)).find e1).map (·.idAttr) = some d1.idAttr := by
        rw [find_removeAddedStyle, idAttr_find_restoreElementState]
        unfold applyFullscreenStyles
        rw [idAttr_find_setStylesFold, idAttr_find_hideWalk, h1]
        rfl
      cases hfd1 : (removeAddedStyle
          (restoreElementState
            (applyFullscreenStyles (hideWalk dom (dom.elems.length + 1) e1).2 e1) e2
            ⟨d1.style, (hideWalk dom (dom.elems.length + 1) e1).1⟩)
          (m.fullscreenStyleElement)).find e1 with
      | none => rw [hfd1] at hsome1; simp at hsome1
      | some d1' =>
        rw [hfd1] at hid1
        have hid1' : d1'.idAttr = d1.idAttr := by simpa using hid1
        unfold isElementFullscreen
        rw [hfd1]
        simp only
        rw [hid1', hid2', ← hid, alookup_mapDelete_self]
        rfl

/-! ## C4: re-entry keeps a single session -/

theorem countP_key_zero_of_not_mem {k : String} :
    ∀ m : List (String × ElementState), k ∉ m.map Prod.fst →
      m.countP (fun pr => pr.1 = k) = 0 := by
  intro m
  induction m with
  | nil => intro _; rfl
  | cons p rest ih =>
    intro h
    rw [List.map_cons, List.mem_cons] at h
    push_neg at h
    rw [List.countP_cons]
    have hp : (decide (p.1 = k)) = false := by
      simp only [decide_eq_false_iff_not]
      exact fun he => h.1 he.symm
    rw [ih h.2, hp]
    rfl

theorem any_key_iff_mem {k : String} :
    ∀ m : List (String × ElementState),
      (m.any fun p => p.1 = k) = true ↔ k ∈ m.map Prod.fst := by
  intro m
  induction m with
  | nil => simp
  | cons p rest ih =>
    simp only [List.any_cons, Bool.or_eq_true, decide_eq_true_eq, List.map_cons,
      List.mem_cons, ih]
    constructor
    · rintro (h | h)
      · exact Or.inl h.symm
      · exact Or.inr h
    · rintro (h | h)
      · exact Or.inl h.symm
      · exact Or.inr h

theorem countP_key_nodup_mem {k : String} :
    ∀ m : List (String × ElementState), (m.map Prod.fst).Nodup →
      k ∈ m.map Prod.fst → m.countP (fun pr => pr.1 = k) = 1 := by
  intro m
  induction m with
  | nil => intro _ h; simp at h
  | cons p rest ih =>
    intro hnd hmem
    rw [List.map_cons] at hnd hmem
    have hnd' := List.nodup_cons.mp hnd
    rw [List.countP_cons]
    by_cases hp : p.1 = k
    · have hk : k ∉ rest.map Prod.fst := hp ▸ hnd'.1
      rw [countP_key_zero_of_not_mem rest hk]
      simp [hp]
    · rcases List.mem_cons.mp hmem with h | h
      · exact absurd h.symm hp
      · rw [ih hnd'.2 h]
        simp [hp]

theorem keys_map_replace (k : String) (v : ElementState) :
    ∀ m : List (String × ElementState),
      ((m.map fun p => if p.1 = k then (k, v) else p).map Prod.fst) =
        m.map Prod.fst := by
  intro m
  induction m with
  | nil => rfl
  | cons p rest ih =>
    by_cases hp : p.1 = k
    · simp only [List.map_cons, if_pos hp, ih]
      rw [hp]
    · simp only [List.map_cons, if_neg hp, ih]

theorem countP_key_replace_eq (k : String) (v : ElementState) :
    ∀ m : List (String × ElementState),
      (m.map fun p => if p.1 = k then (k, v) else p).countP (fun pr => pr.1 = k) =
        m.countP (fun pr => pr.1 = k) := by
  intro m
  induction m with
  | nil => rfl
  | cons p rest ih =>
    by_cases hp : p.1 = k
    · simp only [List.map_cons, if_pos hp, List.countP_cons, ih]
      simp [hp]
    · simp only [List.map_cons, if_neg hp, List.countP_cons, ih]

theorem countP_key_mapSet (m : List (String × ElementState)) (k : String)
    (v : ElementState) (hnd : (m.map Prod.fst).Nodup) :
    (mapSet m k v).countP (fun pr => pr.1 = k) = 1 := by
  unfold mapSet
  by_cases hany : m.any (fun p => p.1 = k)
  · rw [if_pos hany, countP_key_replace_eq]
    exact countP_key_nodup_mem m hnd ((any_key_iff_mem m).mp hany)
  · rw [if_neg hany, List.countP_append]
    have hk : k ∉ m.map Prod.fst := fun hin => hany ((any_key_iff_mem m).mpr hin)
    rw [countP_key_zero_of_not_mem m hk]
    simp

theorem keys_nodup_mapSet (m : List (String × ElementState)) (k : String)
    (v : ElementState) (hnd : (m.map Prod.fst).Nodup) :
    ((mapSet m k v).map Prod.fst).Nodup := by
  unfold mapSet
  by_cases hany : m.any (fun p => p.1 = k)
  · rw [if_pos hany, keys_map_replace]
    exact hnd
  · rw [if_neg hany, List.map_append, List.nodup_append]
    refine ⟨hnd, by simp, ?_⟩
    intro a ha hb
    simp only [List.map_cons, List.map_nil, List.mem_singleton] at hb
    subst hb
    exact hany ((any_key_iff_mem m).mpr ha)

theorem WF_setStylesFold (l : List (SProp × String)) :
    ∀ (dom : Dom) (e : Eid), dom.WF → (setStylesFold dom e l).WF := by
  induction l with
  | nil => intro dom e h; exact h
  | cons pv rest ih =>
    intro dom e h
    unfold setStylesFold at ih ⊢
    simp only [List.foldl_cons]
    exact ih _ e (WF_setStyle _ _ _ _ h)

/-- Entering twice in a row with no custom style. -/
def enterTwice (m : FullscreenManager) (dom : Dom) (e : Eid) :
    FullscreenManager × Dom × Bool :=
  let r1 := toggleFullscreen m dom (some e) true ""
  toggleFullscreen r1.1 r1.2.1 (some e) true ""

/-- C4.  Entering a container twice with no intervening exit leaves
exactly one session under its identifier in the store (never two
overlapping sessions), that session's suppressed-sibling records name no
element twice, and the container's style properties hold the same applied
override values as after the single enter. -/
theorem c4_reenter_single_session (m : FullscreenManager) (dom : Dom) (e : Eid)
    (d : ElementData) (hwf : dom.WF) (hfind : dom.find e = some d)
    (hnd : (m.elementStates.map Prod.fst).Nodup) :
    ((enterTwice m dom e).1.elementStates.countP (fun pr => pr.1 = d.idAttr) = 1)
    ∧ (∀ st : ElementState,
        alookup d.idAttr (enterTwice m dom e).1.elementStates = some st →
          (st.hiddenElements.map Prod.fst).Nodup)
    ∧ (∀ p ∈ STYLES_TO_SAVE,
        styleOf (enterTwice m dom e).2.1 e p =
          styleOf (toggleFullscreen m dom (some e) true "").2.1 e p) := by
  obtain ⟨hW1, hW2, hW3, hW4⟩ := hideWalk_spec (dom.elems.length + 1) e dom hwf
  have henotin : e ∉ (hideWalk dom (dom.elems.length + 1) e).1.map Prod.fst :=
    hW4 e (containsE_self dom e)
  have hfind1 : (hideWalk dom (dom.elems.length + 1) e).2.find e = some d := by
    rw [hW1, find_hideApply_not_mem _ _ _ henotin, hfind]
  have hfind2 :
      (applyFullscreenStyles (hideWalk dom (dom.elems.length + 1) e).2 e).find e =
        some { d with style := setFold d.style FULLSCREEN_STYLES } := by
    unfold applyFullscreenStyles
    rw [find_setStylesFold, hfind1]
    simp
  have hwf2 :
      (applyFullscreenStyles (hideWalk dom (dom.elems.length + 1) e).2 e).WF := by
    unfold applyFullscreenStyles
    apply WF_setStylesFold
    rw [hW1]
    exact WF_hideApply _ dom hwf
  have hunf : enterTwice m dom e =
      toggleFullscreen
        { m with
          elementStates :=
            (mapSet m.elementStates d.idAttr
              (ElementState.mk d.style (hideWalk dom (dom.elems.length + 1) e).1)) }
        (applyFullscreenStyles (hideWalk dom (dom.elems.length + 1) e).2 e)
        (some e) true "" := by
    unfold enterTwice
    rw [toggle_enter_eq m dom e d hfind]
  set dom2 := applyFullscreenStyles (hideWalk dom (dom.elems.length + 1) e).2 e
    with hdom2
  set m1 := mapSet m.elementStates d.idAttr
    (ElementState.mk d.style (hideWalk dom (dom.elems.length + 1) e).1) with hm1
  obtain ⟨hV1, hV2, hV3, hV4⟩ := hideWalk_spec (dom2.elems.length + 1) e dom2 hwf2
  rw [hunf, toggle_enter_eq _ dom2 e _ hfind2]
  simp only
  refine ⟨?_, ?_, ?_⟩
  · exact countP_key_mapSet m1 d.idAttr _ (keys_nodup_mapSet m.elementStates _ _ hnd)
  · intro st hst
    rw [alookup_mapSet_self] at hst
    cases hst
    exact hV2
  · intro p _
    have henotin2 : e ∉ (hideWalk dom2 (dom2.elems.length + 1) e).1.map Prod.fst :=
      hV4 e (containsE_self dom2 e)
    have hfind3 : (hideWalk dom2 (dom2.elems.length + 1) e).2.find e =
        some { d with style := setFold d.style FULLSCREEN_STYLES } := by
      rw [hV1, find_hideApply_not_mem _ _ _ henotin2, hfind2]
    rw [toggle_enter_eq m dom e d hfind]
    simp only
    unfold styleOf applyFullscreenStyles
    rw [find_setStylesFold, hfind3]
    rw [find_setStylesFold, hfind1]
    simp [setFold_fullscreen_const (setFold d.style FULLSCREEN_STYLES) d.style]

/-! ## C5: cleanup -/

theorem cleanupTimer_toggle (m : FullscreenManager) (dom : Dom)
    (elem : Option Eid) (b : Bool) (s : String) :
    (toggleFullscreen m dom elem b s).1.cleanupTimer = m.cleanupTimer := by
  unfold toggleFullscreen
  repeat' split
  all_goals try rfl
  all_goals (dsimp only; cases m.fullscreenStyleElement <;> rfl)

theorem cleanupTimer_exitFullscreen (m : FullscreenManager) (dom : Dom) (e : Eid) :
    (exitFullscreen m dom e).1.cleanupTimer = m.cleanupTimer := by
  unfold exitFullscreen
  split
  · exact cleanupTimer_toggle m dom (some e) false ""
  · rfl

theorem cleanupTimer_cleanupStep (st : FullscreenManager × Dom) (k : String) :
    (cleanupStep st k).1.cleanupTimer = st.1.cleanupTimer := by
  unfold cleanupStep
  cases h : getElementById st.2 k with
  | some e => exact cleanupTimer_exitFullscreen st.1 st.2 e
  | none => rfl

theorem cleanupTimer_foldl :
    ∀ (keys : List String) (st : FullscreenManager × Dom),
      ((keys.foldl cleanupStep st).1).cleanupTimer = st.1.cleanupTimer := by
  intro keys
  induction keys with
  | nil => intro st; rfl
  | cons k rest ih =>
    intro st
    rw [List.foldl_cons, ih, cleanupTimer_cleanupStep]

/-- C5 (amended).  After `cleanup` the session store is empty, the shared
injected-style handle has been released, and the pending sweep timer is
cancelled — for every starting manager state and document, with no
hypothesis on how restoration went. -/
theorem c5_cleanup_empties_store (m : FullscreenManager) (dom : Dom) :
    (cleanup m dom).1.elementStates = []
    ∧ (cleanup m dom).1.fullscreenStyleElement = none
    ∧ (cleanup m dom).1.cleanupTimer = none := by
  refine ⟨?_, ?_, ?_⟩
  · unfold cleanup
    dsimp only
    split <;> rfl
  · unfold cleanup
    dsimp only
    split
    · rfl
    · assumption
  · unfold cleanup
    dsimp only
    split <;> rw [cleanupTimer_foldl]

/-! ## Example documents for witnesses and counterexamples -/

/-- `document.body` of the example document. -/
def exBody : ElementData := ElementData.mk "body" none {} "block"

/-- A panel under the body holding the two blocks. -/
def exPanel : ElementData := ElementData.mk "panel" (some 0) {} "block"

/-- The container that is promoted to fullscreen. -/
def exA : ElementData := ElementData.mk "blkA" (some 1) {} "block"

/-- A sibling block of the container. -/
def exB : ElementData := ElementData.mk "blkB" (some 1) {} "flex"

/-- Example document: body ∋ panel ∋ {blkA, blkB}. -/
def exDom : Dom := Dom.mk [(0, exBody), (1, exPanel), (2, exA), (3, exB)] 0 [] 0

/-- Example document holding a previously injected style block under
handle 0 while the manager's shared handle references it. -/
def exDomH : Dom := Dom.mk [(0, exBody), (1, exPanel), (2, exA), (3, exB)] 0
  [(0, "old css")] 1

/-- Document with a detached element (identity 5): it is a live object but
its parent chain never reaches the body. -/
def exDomDet : Dom :=
  Dom.mk [(0, exBody), (5, ElementData.mk "det" none {} "block")] 0 [] 0

/-- External destruction of an element (e.g. removal of its subtree by
the host) without any `exitFullscreen` call: the element object ceases to
resolve in the document. -/
def removeElem (dom : Dom) (e : Eid) : Dom :=
  { dom with elems := dom.elems.filter fun q => q.1 ≠ e }

/-! ## C2: the injected style handle is shared, not per-session -/

/-- C2 counterexample.  Two containers with distinct identifiers each
enter with non-empty style text and then each exit, in that order.  The
block injected for `blkA` (handle 0) is never removed — it is still in
the document head at the end — and the exit of `blkA` is precisely the
step that removed `blkB`'s block (handle 1).  So not every injected block
is removed exactly once, and ending one container's session released the
block injected for the other. -/
theorem c2_counterexample :
    (let r1 := toggleFullscreen .init exDom (some 2) true "x"
     let r2 := toggleFullscreen r1.1 r1.2.1 (some 3) true "y"
     let r3 := toggleFullscreen r2.1 r2.2.1 (some 2) false ""
     let r4 := toggleFullscreen r3.1 r3.2.1 (some 3) false ""
     r2.2.1.head = [(0, "x"), (1, "y")] ∧ r3.2.1.head = [(0, "x")]
       ∧ r4.2.1.head = [(0, "x")] ∧ r4.1.elementStates = []
       ∧ r2.1.fullscreenStyleElement = some 1) := by
  exact ⟨rfl, rfl, rfl, rfl, rfl⟩

theorem head_hideSiblings (cur : Eid) :
    ∀ (sibs : List Eid) (dom : Dom),
      (hideSiblings dom cur sibs).2.head = dom.head := by
  intro sibs
  induction sibs with
  | nil => intro dom; rfl
  | cons s rest ih =>
    intro dom
    rw [hideSiblings_cons_eq]
    by_cases h : s ≠ cur ∧ containsE dom cur s = false ∧ containsE dom s cur = false
    · rw [if_pos h, ih]; rfl
    · rw [if_neg h, ih]

theorem nextHandle_hideSiblings (cur : Eid) :
    ∀ (sibs : List Eid) (dom : Dom),
      (hideSiblings dom cur sibs).2.nextHandle = dom.nextHandle := by
  intro sibs
  induction sibs with
  | nil => intro dom; rfl
  | cons s rest ih =>
    intro dom
    rw [hideSiblings_cons_eq]
    by_cases h : s ≠ cur ∧ containsE dom cur s = false ∧ containsE dom s cur = false
    · rw [if_pos h, ih]; rfl
    · rw [if_neg h, ih]

theorem head_hideWalk :
    ∀ (fuel : Nat) (cur : Eid) (dom : Dom),
      (hideWalk dom fuel cur).2.head = dom.head := by
  intro fuel
  induction fuel with
  | zero => intro cur dom; rfl
  | succ k ih =>
    intro cur dom
    rw [hideWalk_succ_dom]
    by_cases hb : cur = dom.body
    · rw [if_pos hb]
    · rw [if_neg hb]
      cases parentOf dom cur with
      | none => rfl
      | some par => rw [ih, head_hideSiblings]

theorem nextHandle_hideWalk :
    ∀ (fuel : Nat) (cur : Eid) (dom : Dom),
      (hideWalk dom fuel cur).2.nextHandle = dom.nextHandle := by
  intro fuel
  induction fuel with
  | zero => intro cur dom; rfl
  | succ k ih =>
    intro cur dom
    rw [hideWalk_succ_dom]
    by_cases hb : cur = dom.body
    · rw [if_pos hb]
    · rw [if_neg hb]
      cases parentOf dom cur with
      | none => rfl
      | some par => rw [ih, nextHandle_hideSiblings]

/-- C2 (amended).  The manager keeps one shared style handle, not one per
session: entering with non-empty style text overwrites the shared handle
with the handle of the newly injected block, while a block previously
referenced by the handle stays in the document head, now orphaned (the
handle no longer references it). -/
theorem c2_shared_handle_overwrite (m : FullscreenManager) (dom : Dom)
    (e : Eid) (d : ElementData) (s : String) (h0 : Nat) (css : String)
    (hfind : dom.find e = some d) (hs : s ≠ "")
    (hm : m.fullscreenStyleElement = some h0)
    (hmem : (h0, css) ∈ dom.head) (hlt : h0 < dom.nextHandle) :
    (toggleFullscreen m dom (some e) true s).1.fullscreenStyleElement =
      some dom.nextHandle
    ∧ (h0, css) ∈ (toggleFullscreen m dom (some e) true s).2.1.head
    ∧ dom.nextHandle ≠ h0 := by
  have hmid_head :
      (applyFullscreenStyles (hideWalk dom (dom.elems.length + 1) e).2 e).head =
        dom.head := by
    unfold applyFullscreenStyles
    rw [head_setStylesFold, head_hideWalk]
  have hmid_nh :
      (applyFullscreenStyles (hideWalk dom (dom.elems.length + 1) e).2 e).nextHandle =
        dom.nextHandle := by
    unfold applyFullscreenStyles
    rw [nextHandle_setStylesFold, nextHandle_hideWalk]
  simp only [toggleFullscreen, saveElementState, hfind, if_true]
  rw [if_neg hs]
  unfold addScopedStyle
  refine ⟨by rw [hmid_nh], ?_, fun he => absurd (he ▸ hlt) (lt_irrefl h0)⟩
  simp only
  rw [hmid_head, hmid_nh]
  exact List.mem_append_left _ hmem

/-! ## C3: the sweep evicts but releases nothing -/

/-- C3 counterexample.  `blkA` enters with style text (injecting block 0)
and is then destroyed without exit.  The sweep tick evicts its session,
but the injected block is still in the document head and the shared
handle still references it: the sweep released nothing. -/
theorem c3_counterexample :
    (let r1 := toggleFullscreen .init exDom (some 2) true "x"
     let domDead := removeElem r1.2.1 2
     let m2 := sweepTick r1.1 domDead 300000
     m2.elementStates = [] ∧ m2.fullscreenStyleElement = some 0
       ∧ domDead.head = [(0, "x")] ∧ m2.cleanupTimer = some 300000) := by
  exact ⟨rfl, rfl, rfl, rfl⟩

theorem alookup_foldl_mapDelete (k : String) :
    ∀ (ids : List String) (m0 : List (String × ElementState)),
      alookup k (ids.foldl mapDelete m0) =
        if k ∈ ids then none else alookup k m0 := by
  intro ids
  induction ids with
  | nil => intro m0; simp
  | cons i rest ih =>
    intro m0
    rw [List.foldl_cons, ih]
    by_cases hk : k = i
    · subst hk
      by_cases hr : k ∈ rest
      · simp [hr]
      · simp [hr, alookup_mapDelete_self]
    · by_cases hr : k ∈ rest
      · simp [hr, hk]
      · simp only [hr, if_false]
        rw [alookup_mapDelete_ne _ _ _ hk]
        simp [List.mem_cons, hk, hr]

/-- C3 (amended).  A sweep tick evicts from the store every session whose
identifier no longer resolves to a live document element and re-arms the
timer, but it releases no injected style handle: the shared handle is
untouched (and the tick never modifies the document, so any injected
block stays in the head). -/
theorem c3_sweep_evicts_without_release (m : FullscreenManager) (dom : Dom)
    (interval : Nat) (id : String) (hdead : getElementById dom id = none) :
    alookup id (sweepTick m dom interval).elementStates = none
    ∧ (sweepTick m dom interval).fullscreenStyleElement =
        m.fullscreenStyleElement
    ∧ (sweepTick m dom interval).cleanupTimer = some interval := by
  refine ⟨?_, rfl, rfl⟩
  unfold sweepTick schedulePeriodicCleanup
  simp only
  rw [alookup_foldl_mapDelete]
  by_cases hmem : id ∈ (m.elementStates.map Prod.fst).filter
      (fun i => (getElementById dom i).isNone)
  · rw [if_pos hmem]
  · rw [if_neg hmem]
    cases hlk : alookup id m.elementStates with
    | none => rfl
    | some st =>
      exfalso
      apply hmem
      rw [List.mem_filter]
      refine ⟨List.mem_map_of_mem Prod.fst (alookup_mem hlk), ?_⟩
      rw [hdead]
      rfl

/-! ## C5 counterexample -/

/-- C5 counterexample.  With two styled sessions active, `cleanup`
removes only the block the shared handle references (handle 1); the block
injected for the first session (handle 0) remains in the document head
after `cleanup` returns, even though every restoration succeeded. -/
theorem c5_counterexample :
    (let r1 := toggleFullscreen .init exDom (some 2) true "x"
     let r2 := toggleFullscreen r1.1 r1.2.1 (some 3) true "y"
     let r5 := cleanup r2.1 r2.2.1
     r5.1.elementStates = [] ∧ r5.1.fullscreenStyleElement = none
       ∧ r5.2.head = [(0, "x")]) := by
  exact ⟨rfl, rfl, rfl⟩

/-! ## C6: invalid container -/

/-- C6 (amended).  Calling enter (or exit) with a null container
reference performs no mutation at all, but no error is surfaced to the
caller: the thrown `TypeError` is caught by the surrounding try/catch and
only logged (the returned flag records the internal `console.error`). -/
theorem c6_null_enter_no_mutation (m : FullscreenManager) (dom : Dom)
    (b : Bool) (s : String) :
    toggleFullscreen m dom none b s = (m, dom, true) := rfl

/-- C6 counterexample.  A detached (but non-null) container is not
rejected: enter proceeds, creates a session and mutates the store, with
no error of any kind; and a null container produces no surfaced error —
the call returns normally with only an internal log. -/
theorem c6_counterexample :
    (toggleFullscreen .init exDomDet (some 5) true "").1.elementStates ≠ []
    ∧ (toggleFullscreen .init exDomDet (some 5) true "").2.2 = false
    ∧ toggleFullscreen .init exDomDet none true "" =
        (FullscreenManager.init, exDomDet, true) := by
  refine ⟨?_, rfl, rfl⟩
  intro h
  exact List.noConfusion h

/-! ## C9: placeholder substitution counts -/

theorem countOccs_cons (pat : List Char) (c : Char) (rest : List Char) :
    countOccs pat (c :: rest) =
      (if pat.isPrefixOf (c :: rest) then 1 else 0) + countOccs pat rest := rfl

theorem isPrefixOf_append_self :
    ∀ (q X : List Char), q.isPrefixOf (q ++ X) = true := by
  intro q
  induction q with
  | nil => intro X; simp [List.isPrefixOf]
  | cons c q' ih =>
    intro X
    simp only [List.cons_append, List.isPrefixOf_cons₂_self]
    exact ih X

theorem isPrefixOf_ex :
    ∀ (q l : List Char), q.isPrefixOf l = true → ∃ t, l = q ++ t := by
  intro q
  induction q with
  | nil => intro l _; exact ⟨l, rfl⟩
  | cons c q' ih =>
    intro l h
    cases l with
    | nil => simp [List.isPrefixOf] at h
    | cons d rest =>
      simp only [List.isPrefixOf_cons₂] at h
      have hb := Bool.and_eq_true_iff.mp h
      obtain ⟨t, ht⟩ := ih rest hb.2
      exact ⟨t, by rw [List.cons_append, ← ht, (beq_iff_eq.mp hb.1)]⟩

theorem countOccs_append_head_notin (c : Char) (p' : List Char) :
    ∀ (a X : List Char), c ∉ a →
      countOccs (c :: p') (a ++ X) = countOccs (c :: p') X := by
  intro a
  induction a with
  | nil => intro X _; rfl
  | cons d a' ih =>
    intro X hc
    rw [List.mem_cons] at hc
    push_neg at hc
    rw [List.cons_append, countOccs_cons]
    have hpre : ((c :: p').isPrefixOf (d :: (a' ++ X))) = false := by
      simp only [List.isPrefixOf_cons₂]
      have hcd : (c == d) = false := by
        simp only [beq_eq_false_iff_ne]
        exact hc.1
      rw [hcd]
      rfl
    rw [hpre, ih X hc.2]
    simp

theorem countOccs_peel_self (c : Char) (p' : List Char) (X : List Char)
    (hc : c ∉ p') :
    countOccs (c :: p') ((c :: p') ++ X) = 1 + countOccs (c :: p') X := by
  rw [List.cons_append, countOccs_cons]
  have h1 : (c :: p').isPrefixOf (c :: (p' ++ X)) = true := by
    have h2 := isPrefixOf_append_self (c :: p') X
    rwa [List.cons_append] at h2
  rw [h1, countOccs_append_head_notin c p' p' X hc]
  simp

theorem scanRepl_skip (pat rep : List Char) :
    ∀ (a X : List Char), scanRepl pat rep (a ++ X) a.length = scanRepl pat rep X 0 := by
  intro a
  induction a with
  | nil => intro X; rfl
  | cons d a' ih =>
    intro X
    rw [List.cons_append]
    exact ih X

theorem prefix_of_scanRepl (pat : List Char) (rep' : List Char) :
    ∀ (X q : List Char), '#' ∉ q →
      q.isPrefixOf (scanRepl pat ('#' :: rep') X 0) = true →
      q.isPrefixOf X = true := by
  intro X
  induction X with
  | nil =>
    intro q _ h
    cases q with
    | nil => rfl
    | cons e q' => simp [scanRepl, List.isPrefixOf] at h
  | cons d R ih =>
    intro q hq h
    cases q with
    | nil => rfl
    | cons e q' =>
      rw [List.mem_cons] at hq
      push_neg at hq
      by_cases hm : pat.isPrefixOf (d :: R)
      · unfold scanRepl at h
        rw [if_pos hm] at h
        simp only [List.cons_append, List.isPrefixOf_cons₂] at h
        have hb := Bool.and_eq_true_iff.mp h
        exact absurd (beq_iff_eq.mp hb.1) (Ne.symm hq.1)
      · unfold scanRepl at h
        rw [if_neg hm] at h
        simp only [List.isPrefixOf_cons₂] at h ⊢
        have hb := Bool.and_eq_true_iff.mp h
        rw [hb.1]
        simp only [Bool.true_and]
        exact ih q' hq.2 hb.2

theorem countOccs_pat_scan_zero (pat' sel' : List Char)
    (hp2 : '#' ∉ pat') (hsel : '$' ∉ ('#' :: sel')) :
    ∀ (n : Nat) (X : List Char), X.length ≤ n →
      countOccs ('$' :: pat') (scanRepl ('$' :: pat') ('#' :: sel') X 0) = 0 := by
  intro n
  induction n with
  | zero =>
    intro X hlen
    cases X with
    | nil => rfl
    | cons c R => simp at hlen
  | succ k ih =>
    intro X hlen
    cases X with
    | nil => rfl
    | cons c R =>
      by_cases hm : ('$' :: pat').isPrefixOf (c :: R)
      · unfold scanRepl
        rw [if_pos hm]
        obtain ⟨t, ht⟩ := isPrefixOf_ex _ _ hm
        rw [List.cons_append] at ht
        injection ht with hc hR
        have hlen2 : ('$' :: pat').length - 1 = pat'.length := by simp
        rw [hlen2, hR, scanRepl_skip]
        rw [countOccs_append_head_notin '$' pat' ('#' :: sel') _ hsel]
        apply ih t
        have : R.length = pat'.length + t.length := by
          rw [hR, List.length_append]
        simp only [List.length_cons] at hlen
        omega
      · unfold scanRepl
        rw [if_neg hm]
        rw [countOccs_cons]
        have hnp : (('$' :: pat').isPrefixOf
            (c :: scanRepl ('$' :: pat') ('#' :: sel') R 0)) = false := by
          cases hb : ('$' :: pat').isPrefixOf
              (c :: scanRepl ('$' :: pat') ('#' :: sel') R 0) with
          | false => rfl
          | true =>
            exfalso
            rw [List.isPrefixOf_cons₂] at hb
            have hb2 := Bool.and_eq_true_iff.mp hb
            have hq := prefix_of_scanRepl ('$' :: pat') sel' R pat' hp2 hb2.2
            apply hm
            rw [List.isPrefixOf_cons₂, hb2.1]
            simpa using hq
        rw [hnp]
        have hR : R.length ≤ k := by
          simp only [List.length_cons] at hlen
          omega
        rw [ih R hR]
        simp

theorem countOccs_sel_scan (pat' sel' : List Char)
    (hp1 : '$' ∉ pat') (hs2 : '#' ∉ sel') :
    ∀ (n : Nat) (X : List Char), X.length ≤ n → '#' ∉ X →
      countOccs ('#' :: sel') (scanRepl ('$' :: pat') ('#' :: sel') X 0) =
        countOccs ('$' :: pat') X := by
  intro n
  induction n with
  | zero =>
    intro X hlen _
    cases X with
    | nil => rfl
    | cons c R => simp at hlen
  | succ k ih =>
    intro X hlen hX
    cases X with
    | nil => rfl
    | cons c R =>
      rw [List.mem_cons] at hX
      push_neg at hX
      by_cases hm : ('$' :: pat').isPrefixOf (c :: R)
      · unfold scanRepl
        rw [if_pos hm]
        obtain ⟨t, ht⟩ := isPrefixOf_ex _ _ hm
        rw [List.cons_append] at ht
        injection ht with hc hR
        have hlen2 : ('$' :: pat').length - 1 = pat'.length := by simp
        rw [hlen2, hR, scanRepl_skip]
        rw [countOccs_peel_self '#' sel' _ hs2]
        have htlen : t.length ≤ k := by
          have : R.length = pat'.length + t.length := by
            rw [hR, List.length_append]
          simp only [List.length_cons] at hlen
          omega
        have htmem : '#' ∉ t := by
          intro hmem
          apply hX.2
          rw [hR]
          exact List.mem_append_right _ hmem
        rw [ih t htlen htmem, hc, ← List.cons_append,
          countOccs_peel_self '$' pat' t hp1]
      · unfold scanRepl
        rw [if_neg hm]
        rw [countOccs_cons, countOccs_cons]
        have hnp1 : (('#' :: sel').isPrefixOf
            (c :: scanRepl ('$' :: pat') ('#' :: sel') R 0)) = false := by
          rw [List.isPrefixOf_cons₂]
          have : ('#' == c) = false := by
            simp only [beq_eq_false_iff_ne]
            exact hX.1
          rw [this]
          rfl
        have hnp2 : (('$' :: pat').isPrefixOf (c :: R)) = false := by
          cases hb : ('$' :: pat').isPrefixOf (c :: R) with
          | false => rfl
          | true => exact absurd hb hm
        rw [hnp1, hnp2]
        have hR : R.length ≤ k := by
          simp only [List.length_cons] at hlen
          omega
        rw [ih R hR hX.2]

/-- The placeholder token without its leading dollar sign. -/
def patTail : List Char := "\x7bblockId\x7d".toList

theorem placeholder_split : placeholderChars = '$' :: patTail := by decide

/-- C9 (amended).  When the override text contains no `#` character and
the identifier contains neither `#` nor `$`, processing a text with
exactly `N` placeholder occurrences yields a text with exactly `N`
occurrences of the scoped selector and zero remaining placeholders.
(The unrestricted claim fails: see the counterexample, where selector
text already present in the override is double-counted.) -/
theorem c9_substitution_counts (style blockId : String) (N : Nat)
    (hN : countOccs placeholderChars style.toList = N)
    (hsty : '#' ∉ style.toList)
    (hid1 : '#' ∉ blockId.toList) (hid2 : '$' ∉ blockId.toList) :
    countOccs (selectorChars blockId)
        ((processFullscreenStyle style blockId).toList) = N
    ∧ countOccs placeholderChars
        ((processFullscreenStyle style blockId).toList) = 0 := by
  have hpd : '$' ∉ patTail := by decide
  have hph : '#' ∉ patTail := by decide
  have hselh : '#' ∉ blockId.toList ++ [' '] := by
    intro h
    rcases List.mem_append.mp h with h | h
    · exact hid1 h
    · simp at h
  have hseld : '$' ∉ '#' :: (blockId.toList ++ [' ']) := by
    intro h
    rcases List.mem_cons.mp h with h | h
    · simp at h
    · rcases List.mem_append.mp h with h | h
      · exact hid2 h
      · simp at h
  have htl : (processFullscreenStyle style blockId).toList =
      scanRepl placeholderChars (selectorChars blockId) style.toList 0 := rfl
  have hsel : selectorChars blockId = '#' :: (blockId.toList ++ [' ']) := rfl
  constructor
  · rw [htl, hsel, placeholder_split]
    rw [countOccs_sel_scan patTail (blockId.toList ++ [' ']) hpd hselh
      style.toList.length style.toList le_rfl hsty]
    rw [← placeholder_split, hN]
  · rw [htl, hsel, placeholder_split]
    exact countOccs_pat_scan_zero patTail (blockId.toList ++ [' ']) hph hseld
      style.toList.length style.toList le_rfl

/-- C9 counterexample.  The override text `#i ${blockId}` contains the
placeholder exactly once, but for identifier `i` the processed text
`#i #i ` contains the scoped selector `#i ` twice, because the selector
already occurred literally in the override text.  So the processed text
does not contain the selector exactly N times in general. -/
theorem c9_counterexample :
    countOccs placeholderChars ("#i $\x7bblockId\x7d".toList) = 1
    ∧ countOccs (selectorChars "i")
        ((processFullscreenStyle "#i $\x7bblockId\x7d" "i").toList) = 2 := by
  decide

/-! ## Witnesses -/

/-- A manager whose shared handle references block 0. -/
def exMgrH : FullscreenManager := FullscreenManager.mk [] (some 0) none

/-- A manager holding one session whose identifier resolves to no
element of `exDom`. -/
def exMgrS : FullscreenManager :=
  FullscreenManager.mk [("gone", ElementState.mk {} [])] (some 0) none

/-- Document with two distinct live elements sharing the id `dup`. -/
def exDom10 : Dom :=
  Dom.mk [(0, exBody), (1, ElementData.mk "dup" (some 0) {} "block"),
    (2, ElementData.mk "dup" (some 0) {} "block")] 0 [] 0

theorem c1_enter_exit_restores_witness :
    exDom.WF ∧ exDom.find 2 = some exA
    ∧ ((∀ p ∈ STYLES_TO_SAVE,
          styleOf (enterThenExit FullscreenManager.init exDom 2).2.1 2 p =
            styleOf exDom 2 p)
       ∧ (∀ pr ∈ suppressedSiblings exDom 2,
          computedDisplay (enterThenExit FullscreenManager.init exDom 2).2.1 pr.1 =
            computedDisplay exDom pr.1)) :=
  ⟨by decide, by decide,
   c1_enter_exit_restores FullscreenManager.init exDom 2 exA (by decide) (by decide)⟩

theorem c2_shared_handle_overwrite_witness :
    (exDomH.find 2 = some exA ∧ ("y" : String) ≠ ""
      ∧ exMgrH.fullscreenStyleElement = some 0
      ∧ (0, "old css") ∈ exDomH.head ∧ 0 < exDomH.nextHandle)
    ∧ ((toggleFullscreen exMgrH exDomH (some 2) true "y").1.fullscreenStyleElement =
        some exDomH.nextHandle
      ∧ (0, "old css") ∈ (toggleFullscreen exMgrH exDomH (some 2) true "y").2.1.head
      ∧ exDomH.nextHandle ≠ 0) :=
  ⟨⟨by decide, by decide, rfl, by decide, by decide⟩,
   c2_shared_handle_overwrite exMgrH exDomH 2 exA "y" 0 "old css"
     (by decide) (by decide) rfl (by decide) (by decide)⟩

theorem c3_sweep_evicts_without_release_witness :
    getElementById exDom "gone" = none
    ∧ (alookup "gone" (sweepTick exMgrS exDom 300000).elementStates = none
      ∧ (sweepTick exMgrS exDom 300000).fullscreenStyleElement =
          exMgrS.fullscreenStyleElement
      ∧ (sweepTick exMgrS exDom 300000).cleanupTimer = some 300000) :=
  ⟨by decide,
   c3_sweep_evicts_without_release exMgrS exDom 300000 "gone" (by decide)⟩

theorem c4_reenter_single_session_witness :
    exDom.WF ∧ exDom.find 2 = some exA
    ∧ ((FullscreenManager.init.elementStates.map Prod.fst).Nodup)
    ∧ (((enterTwice FullscreenManager.init exDom 2).1.elementStates.countP
          (fun pr => pr.1 = exA.idAttr) = 1)
      ∧ (∀ st : ElementState,
          alookup exA.idAttr
            (enterTwice FullscreenManager.init exDom 2).1.elementStates = some st →
            (st.hiddenElements.map Prod.fst).Nodup)
      ∧ (∀ p ∈ STYLES_TO_SAVE,
          styleOf (enterTwice FullscreenManager.init exDom 2).2.1 2 p =
            styleOf (toggleFullscreen FullscreenManager.init exDom (some 2) true "").2.1
            2 p)) :=
  ⟨by decide, by decide, by decide,
   c4_reenter_single_session FullscreenManager.init exDom 2 exA
     (by decide) (by decide) (by decide)⟩

theorem c7_exit_idempotent_witness :
    exDom.find 2 = some exA
    ∧ exitFullscreen (exitFullscreen FullscreenManager.init exDom 2).1
        (exitFullscreen FullscreenManager.init exDom 2).2 2 =
      exitFullscreen FullscreenManager.init exDom 2 :=
  ⟨by decide,
   c7_exit_idempotent FullscreenManager.init exDom 2 exA (by decide)⟩

theorem c8_never_entered_noop_witness :
    (exDom.find 2 = some exA
      ∧ alookup exA.idAttr FullscreenManager.init.elementStates = none)
    ∧ (isElementFullscreen FullscreenManager.init exDom 2 = false
      ∧ exitFullscreen FullscreenManager.init exDom 2 =
          (FullscreenManager.init, exDom)) :=
  ⟨⟨by decide, rfl⟩,
   c8_never_entered_noop FullscreenManager.init exDom 2 exA (by decide) rfl⟩

theorem c9_substitution_counts_witness :
    (countOccs placeholderChars ("a $\x7bblockId\x7d b".toList) = 1
      ∧ '#' ∉ ("a $\x7bblockId\x7d b".toList)
      ∧ '#' ∉ ("blk".toList) ∧ '$' ∉ ("blk".toList))
    ∧ (countOccs (selectorChars "blk")
          ((processFullscreenStyle "a $\x7bblockId\x7d b" "blk").toList) = 1
      ∧ countOccs placeholderChars
          ((processFullscreenStyle "a $\x7bblockId\x7d b" "blk").toList) = 0) :=
  ⟨⟨by decide, by decide, by decide, by decide⟩,
   c9_substitution_counts "a $\x7bblockId\x7d b" "blk" 1
     (by decide) (by decide) (by decide) (by decide)⟩

theorem c10_sessions_keyed_by_id_witness :
    ((1 : Eid) ≠ 2 ∧ exDom10.find 1 = some (ElementData.mk "dup" (some 0) {} "block")
      ∧ exDom10.find 2 = some (ElementData.mk "dup" (some 0) {} "block"))
    ∧ (isElementFullscreen (toggleFullscreen FullscreenManager.init exDom10 (some 1) true "").1
        (toggleFullscreen FullscreenManager.init exDom10 (some 1) true "").2.1 2 = true
      ∧ isElementFullscreen
          (toggleFullscreen (toggleFullscreen FullscreenManager.init exDom10 (some 1) true "").1
            (toggleFullscreen FullscreenManager.init exDom10 (some 1) true "").2.1
            (some 2) false "").1
          (toggleFullscreen (toggleFullscreen FullscreenManager.init exDom10 (some 1) true "").1
            (toggleFullscreen FullscreenManager.init exDom10 (some 1) true "").2.1
            (some 2) false "").2.1
          1 = false) :=
  ⟨⟨by decide, by decide, by decide⟩,
   c10_sessions_keyed_by_id FullscreenManager.init exDom10 1 2
     (ElementData.mk "dup" (some 0) {} "block")
     (ElementData.mk "dup" (some 0) {} "block")
     (by decide) (by decide) (by decide) rfl⟩
